import Mathlib

/-!
Shallow embedding of the SchemaMapper_DataQualityFixer core
(`src/mapper.py` and `src/clean_validate.py`) together with theorems
checking the natural-language specification against it.

Modelling conventions:
* Python cell values are embedded as the inductive type `Val`:
  strings, ints, floats (modelled exactly as rationals `ℚ`) and
  null/NaN (`vnone` covers both `None` and a float NaN, which the code
  always treats alike via `pd.isna`).
* Character-level operations mirror the Python code on ASCII data
  (`str.lower`, `str.upper`, `\d`, `[A-Z]` are ASCII in the model,
  while Python is Unicode-aware; no claim exercises non-ASCII data).
* Each specific regular expression of the source is implemented as an
  executable matcher over `List Char` with exactly the structure of the
  pattern; `$` is modelled as end-of-string, which agrees with Python's
  `$` on every string reaching the pattern because those strings are
  stripped of outer whitespace first.
* Calls to external collaborators (`map_headers_with_llm`,
  `propose_schema_for_headers`, `clean_value_with_llm`) are modelled by
  passing the collaborator's response as an explicit parameter.
-/

namespace SchemaMapper

/-! ### Character classes and string primitives -/

/-- Whitespace characters removed by Python `str.strip()` (ASCII range). -/
def isPySpace (c : Char) : Bool :=
  c = ' ' || c = '\t' || c = '\n' || c = '\r' || c = '\x0b' || c = '\x0c'

/-- `str.strip()` on the character list. -/
def stripL (cs : List Char) : List Char :=
  ((cs.dropWhile isPySpace).reverse.dropWhile isPySpace).reverse

/-- `str.strip()`. -/
def pyStrip (s : String) : String := ⟨stripL s.data⟩

/-- `str.upper()` (ASCII). -/
def pyUpper (s : String) : String := ⟨s.data.map Char.toUpper⟩

/-- `str.lower()` (ASCII). -/
def pyLower (s : String) : String := ⟨s.data.map Char.toLower⟩

/-- `value.replace(" ", "")`: drop every space character. -/
def removeSpacesL (cs : List Char) : List Char := cs.filter (fun c => c ≠ ' ')

/-- `value.replace(" ", "")` on strings. -/
def removeSpaces (s : String) : String := ⟨removeSpacesL s.data⟩

/-- `PHONE_CLEAN_RE.sub("", v)`: keep only `[0-9+]`. -/
def phoneCleanL (cs : List Char) : List Char :=
  cs.filter (fun c => c.isDigit || c = '+')

/-- `re.sub(r"[^0-9]", "", s)`: keep only digits. -/
def digitsOnlyL (cs : List Char) : List Char := cs.filter Char.isDigit

/-- Substring test (Python `k in c`). -/
def containsSubL (hay needle : List Char) : Bool :=
  hay.tails.any (fun t => needle.isPrefixOf t)

/-! ### Models of the specific regular expressions of `clean_validate.py` -/

/-- Character class `[A-Za-z0-9._%+-]` (local part of `EMAIL_RE`). -/
def isLocalChar (c : Char) : Bool :=
  c.isAlpha || c.isDigit || c = '.' || c = '_' || c = '%' || c = '+' || c = '-'

/-- Character class `[A-Za-z0-9.-]` (domain part of `EMAIL_RE`). -/
def isDomainChar (c : Char) : Bool :=
  c.isAlpha || c.isDigit || c = '.' || c = '-'

/-- The domain tail `[A-Za-z0-9.-]+\.[A-Za-z]{2,}` of `EMAIL_RE`:
some split `d ++ "." ++ t` with `d` a non-empty run of domain characters
and `t` at least two letters. -/
def domainOk (cs : List Char) : Bool :=
  (List.range cs.length).any (fun i =>
    decide (0 < i) && (cs.take i).all isDomainChar &&
    cs.get? i = some '.' &&
    decide (2 ≤ (cs.drop (i + 1)).length) && (cs.drop (i + 1)).all Char.isAlpha)

/-- Full-string match of `EMAIL_RE = ^[A-Za-z0-9._%+-]+@[A-Za-z0-9.-]+\.[A-Za-z]{2,}$`:
some split at an `@` whose left side is a non-empty run of local characters and
whose right side satisfies `domainOk` (neither class contains `@`, so any
successful split is unique). -/
def emailMatchL (cs : List Char) : Bool :=
  (List.range cs.length).any (fun i =>
    decide (0 < i) && (cs.take i).all isLocalChar &&
    cs.get? i = some '@' &&
    domainOk (cs.drop (i + 1)))

/-- `EMAIL_RE.match(s)` as a Boolean on strings. -/
def emailMatch (s : String) : Bool := emailMatchL s.data

/-- `ORDER_ID_RE = ^ORD-\d{4}$`. -/
def orderIdMatch (s : String) : Bool :=
  match s.data with
  | 'O' :: 'R' :: 'D' :: '-' :: ds => ds.length = 4 && ds.all Char.isDigit
  | _ => false

/-- `CUST_ID_RE = ^CUST-\d{1,}$`. -/
def custIdMatch (s : String) : Bool :=
  match s.data with
  | 'C' :: 'U' :: 'S' :: 'T' :: '-' :: ds => decide (0 < ds.length) && ds.all Char.isDigit
  | _ => false

/-- `SKU_RE = ^[A-Z]{2}-\d{4}$`. -/
def skuMatch (s : String) : Bool :=
  match s.data with
  | a :: b :: '-' :: ds => a.isUpper && b.isUpper && ds.length = 4 && ds.all Char.isDigit
  | _ => false

/-- `[1-9A-Z]` (14th character of a GSTIN). -/
def isGstin14 (c : Char) : Bool := ('1' ≤ c && c ≤ '9') || c.isUpper

/-- `[0-9A-Z]` (last character of a GSTIN). -/
def isGstin15 (c : Char) : Bool := c.isDigit || c.isUpper

/-- `GSTIN_RE = ^[0-9]{2}[A-Z]{5}[0-9]{4}[A-Z]{1}[1-9A-Z]{1}Z[0-9A-Z]{1}$`. -/
def gstinMatch (s : String) : Bool :=
  match s.data with
  | [d1, d2, a1, a2, a3, a4, a5, n1, n2, n3, n4, e1, e2, 'Z', e3] =>
    d1.isDigit && d2.isDigit && a1.isUpper && a2.isUpper && a3.isUpper &&
    a4.isUpper && a5.isUpper && n1.isDigit && n2.isDigit && n3.isDigit &&
    n4.isDigit && e1.isUpper && isGstin14 e2 && isGstin15 e3
  | _ => false

/-- `PIN6_RE = ^\d{6}$`. -/
def pin6Match (s : String) : Bool :=
  s.data.length = 6 && s.data.all Char.isDigit

/-- `re.search(r"\d{7,}", s)`: some run of at least 7 consecutive digits. -/
def hasDigitRun7 (cs : List Char) : Bool :=
  cs.tails.any (fun t => (t.take 7).length = 7 && (t.take 7).all Char.isDigit)

/-- Greedy choice of the domain split used by Python's backtracking search
for `[A-Za-z0-9.-]+\.[A-Za-z]{2,}`: within the maximal run of domain
characters, the rightmost dot followed by at least two letters wins, and the
`{2,}` part greedily takes the maximal run of letters after that dot. -/
def domainGroup (cs : List Char) : Option (List Char) :=
  let run := cs.takeWhile isDomainChar
  let cand := (List.range run.length).filterMap (fun i =>
    if 0 < i ∧ run.get? i = some '.' ∧
        2 ≤ ((run.drop (i + 1)).takeWhile Char.isAlpha).length
    then some i else none)
  match cand.max? with
  | some i => some (run.take i ++ '.' :: (run.drop (i + 1)).takeWhile Char.isAlpha)
  | none => none

/-- Match of the unanchored email pattern at the start of `cs`, returning the
matched group: the local `+` is forced to be the maximal run of local
characters (no smaller run can be followed by `@`, since `@` is not a local
character), then the greedy domain group. -/
def emailGroupAt (cs : List Char) : Option (List Char) :=
  let loc := cs.takeWhile isLocalChar
  if loc.isEmpty then none
  else
    match cs.drop loc.length with
    | '@' :: rest =>
      match domainGroup rest with
      | some g => some (loc ++ '@' :: g)
      | none => none
    | _ => none

/-- `re.search` of the email pattern: leftmost starting position wins,
with the group computed by `emailGroupAt`. -/
def findEmail : List Char → Option (List Char)
  | [] => none
  | c :: cs =>
    match emailGroupAt (c :: cs) with
    | some g => some g
    | none => findEmail cs

/-! ### Numbers: Python floats modelled exactly as rationals -/

/-- Numeric value of a list of decimal digit characters. -/
def digitsVal (cs : List Char) : ℕ :=
  cs.foldl (fun a c => 10 * a + (c.toNat - '0'.toNat)) 0

/-- Exact rational division, written on the raw representation so that it
evaluates by kernel reduction (`a / b`, with `a / 0 = 0` as in Mathlib). -/
def ratDiv (a b : ℚ) : ℚ := Rat.divInt (a.num * b.den) (a.den * b.num)

/-- `10 ^ k` as a natural number (kernel-computable power). -/
def pow10 (k : ℕ) : ℕ := 10 ^ k

/-- Model of Python `float(s)` on the decimal grammar
`[+-]? (digits [. digits?] | . digits) ([eE] [+-]? digits)?`.
`inf`/`nan`/underscored literals are conservatively mapped to failure
(no claim exercises them, and every accepting branch guarded by a
`[0,1]`-range or `≥ 0` check rejects them in the source as well). -/
def parsePyFloat (s : String) : Option ℚ :=
  let cs := s.data
  let (sign, cs1) : ℤ × List Char :=
    match cs with
    | '+' :: r => (1, r)
    | '-' :: r => (-1, r)
    | r => (1, r)
  let ip := cs1.takeWhile Char.isDigit
  let cs2 := cs1.drop ip.length
  let (fp, cs3) : List Char × List Char :=
    match cs2 with
    | '.' :: r => (r.takeWhile Char.isDigit, r.drop (r.takeWhile Char.isDigit).length)
    | r => ([], r)
  if ip.isEmpty ∧ fp.isEmpty then none
  else
    -- the value `sign · (ip . fp)` as an integer numerator over a power of 10
    let num : ℤ := sign * (digitsVal ip * pow10 fp.length + digitsVal fp)
    let den : ℕ := pow10 fp.length
    match cs3 with
    | [] => some (Rat.divInt num den)
    | 'e' :: r | 'E' :: r =>
      let (esign, r1) : ℤ × List Char :=
        match r with
        | '+' :: t => (1, t)
        | '-' :: t => (-1, t)
        | t => (1, t)
      let ed := r1.takeWhile Char.isDigit
      if ed.isEmpty ∨ ¬ (r1.drop ed.length).isEmpty then none
      else
        let e : ℤ := esign * (digitsVal ed : ℤ)
        some (if 0 ≤ e then Rat.divInt (num * pow10 e.toNat) den
              else Rat.divInt num (den * pow10 (-e).toNat))
    | _ => none

/-- Python `round(x)`: round half to even. -/
def roundHalfEven (q : ℚ) : ℤ :=
  let f := q.floor
  -- `r2 = 2·den·(q − f)`; `r2 < den ↔ q − f < 1/2`, etc.
  let r2 : ℤ := 2 * (q.num - f * (q.den : ℤ))
  if r2 < (q.den : ℤ) then f
  else if (q.den : ℤ) < r2 then f + 1
  else if f % 2 = 0 then f else f + 1

/-- Python `round(x, 4)`. -/
def round4 (q : ℚ) : ℚ :=
  Rat.divInt (roundHalfEven (Rat.divInt (q.num * 10000) q.den)) 10000

/-! ### Cell values -/

/-- A Python cell value: string, int, float (exact rational), or null.
`vnone` covers both `None` and float NaN, which the source code always
treats alike (`value is None or (isinstance(value, float) and pd.isna(value))`). -/
inductive Val where
  | vstr (s : String)
  | vint (n : ℤ)
  | vnum (q : ℚ)
  | vnone
deriving DecidableEq, Repr

/-- `_strip`: strips strings, leaves every other value unchanged. -/
def vStrip : Val → Val
  | Val.vstr s => Val.vstr (pyStrip s)
  | v => v

/-- Terminating-decimal rendering used to model Python `str()` on numbers
(`str(int)` is exact; `str(float)` is the shortest round-tripping decimal,
which coincides with this rendering on the short decimals that occur;
non-terminating rationals fall back to a `num/den` rendering, a case no
Python float can produce). -/
def decimalRender (q : ℚ) : String :=
  if q.den = 1 then toString q.num ++ ".0"
  else
    match (List.range 40).find? (fun k => ((pow10 k : ℕ) : ℤ) % (q.den : ℤ) = 0) with
    | some k =>
      let scaled : ℤ := q.num * (((pow10 k : ℕ) : ℤ) / (q.den : ℤ))
      let ds := toString scaled.natAbs
      let ds := if ds.length ≤ k then ⟨List.replicate (k + 1 - ds.length) '0'⟩ ++ ds else ds
      (if q.num < 0 then "-" else "") ++ ds.dropRight k ++ "." ++ ds.takeRight k
    | none => toString q.num ++ "/" ++ toString q.den

/-- Python `str()` of a cell value (only ever applied to non-null cells). -/
def pyValStr : Val → String
  | Val.vstr s => s
  | Val.vint n => toString n
  | Val.vnum q => decimalRender q
  | Val.vnone => ""

/-- `_to_float`: `None`/NaN fail; ints and floats convert directly; strings are
stripped, then `%`, `₹` and `[ ,\t\n\r\f\v]` are removed and the result parsed. -/
def toFloat? : Val → Option ℚ
  | Val.vnone => none
  | Val.vint n => some (n : ℚ)
  | Val.vnum q => some q
  | Val.vstr s =>
    let s1 := (pyStrip s).data
    let s2 := s1.filter (fun c => c ≠ '%' ∧ c ≠ '₹' ∧ c ≠ ' ' ∧ c ≠ ',' ∧
      c ≠ '\t' ∧ c ≠ '\n' ∧ c ≠ '\r' ∧ c ≠ '\x0c' ∧ c ≠ '\x0b')
    parsePyFloat ⟨s2⟩

/-- `_to_fraction`: numbers in `[0,1]` are kept, all others divided by 100;
strings are stripped and lowercased, a trailing `%` dropped and commas removed
before parsing. -/
def toFraction? : Val → Option ℚ
  | Val.vnone => none
  | Val.vint n =>
    some (if 0 ≤ (n : ℚ) ∧ (n : ℚ) ≤ 1 then (n : ℚ) else ratDiv (n : ℚ) 100)
  | Val.vnum q => some (if 0 ≤ q ∧ q ≤ 1 then q else ratDiv q 100)
  | Val.vstr s =>
    let s1 := (pyLower (pyStrip s)).data
    let s2 := if s1.getLast? = some '%' then s1.dropLast else s1
    let s3 := s2.filter (fun c => c ≠ ',')
    match parsePyFloat ⟨s3⟩ with
    | some v => some (if 0 ≤ v ∧ v ≤ 1 then v else ratDiv v 100)
    | none => none

/-- `_to_int`: `int(round(_to_float(value)))`. -/
def toInt? (v : Val) : Option ℤ := (toFloat? v).map roundHalfEven

/-! ### Date parsing

`_parse_date` calls `dateutil.parser.parse(str(value), dayfirst=True,
fuzzy=True)`. The model below is translated from dateutil's
`parser._parse`/`ymd.resolve_ymd` (version 2.8.x) restricted to the inputs the
claims exercise: three non-empty runs of at most four digits separated by `-`
or `/`, with at most one run longer than two digits (that run is dateutil's
"probable year" and fixes its century). All other inputs are conservatively
mapped to parse failure. -/

/-- dateutil `parserinfo.convertyear` for a two-digit year, evaluated at the
current century (2000) and pivot `current_year + 50`. -/
def convertYear (y : ℕ) : ℕ :=
  if y < 100 then (if y + 2000 < 2075 then y + 2000 else y + 1900) else y

def isLeap (y : ℕ) : Bool := (y % 4 = 0 && y % 100 ≠ 0) || y % 400 = 0

def daysInMonth (y m : ℕ) : ℕ :=
  if m = 1 ∨ m = 3 ∨ m = 5 ∨ m = 7 ∨ m = 8 ∨ m = 10 ∨ m = 12 then 31
  else if m = 4 ∨ m = 6 ∨ m = 9 ∨ m = 11 then 30
  else if m = 2 then (if isLeap y then 29 else 28)
  else 0

/-- Split `d1 sep d2 sep d3` with `sep ∈ {-, /}`, each run non-empty, at most
four digits, and at most one run longer than two digits. -/
def splitDateTokens (cs : List Char) : Option (List Char × List Char × List Char) :=
  let t1 := cs.takeWhile Char.isDigit
  match cs.drop t1.length with
  | s1 :: r1 =>
    if s1 = '-' ∨ s1 = '/' then
      let t2 := r1.takeWhile Char.isDigit
      match r1.drop t2.length with
      | s2 :: r2 =>
        if s2 = '-' ∨ s2 = '/' then
          let t3 := r2.takeWhile Char.isDigit
          if t3 = r2 ∧ 0 < t1.length ∧ t1.length ≤ 4 ∧ 0 < t2.length ∧
              t2.length ≤ 4 ∧ 0 < t3.length ∧ t3.length ≤ 4 ∧
              ([t1, t2, t3].countP (fun t => 2 < t.length)) ≤ 1
          then some (t1, t2, t3)
          else none
        else none
      | [] => none
    else none
  | [] => none

def pad2 (n : ℕ) : String := if n < 10 then "0" ++ toString n else toString n

/-- The `len_ymd == 3`, no-month-string arm of dateutil's `resolve_ymd`, with
`dayfirst=True` and `yearfirst=False`, followed by century conversion,
calendar validation and `%Y-%m-%d` formatting. -/
def parse_date (s : String) : Option String :=
  match splitDateTokens s.data with
  | none => none
  | some (t1, t2, t3) =>
    let a := digitsVal t1
    let b := digitsVal t2
    let c := digitsVal t3
    -- (year, month, day, year token length)
    let ymd : ℕ × ℕ × ℕ × ℕ :=
      if 31 < a ∨ 2 < t1.length then
        -- "99-01-01": with dayfirst, year-day-month when the last value ≤ 12
        if c ≤ 12 then (a, c, b, t1.length) else (a, b, c, t1.length)
      else if 12 < a ∨ b ≤ 12 then (c, b, a, t3.length) -- day, month, year
      else (c, a, b, t3.length) -- month, day, year
    let y0 := ymd.1
    let m := ymd.2.1
    let d := ymd.2.2.1
    let ylen := ymd.2.2.2
    let y := if 2 < ylen then y0 else convertYear y0
    if 1 ≤ m ∧ m ≤ 12 ∧ 1 ≤ d ∧ d ≤ daysInMonth y m ∧ 1 ≤ y ∧ y ≤ 9999 then
      some (toString y ++ "-" ++ pad2 m ++ "-" ++ pad2 d)
    else none

/-! ### `validate_and_clean` -/

/-- `_normalize_currency`: symbol lookup (`₹`, `$`), then lowercase alias
lookup (`inr`, `rs`, `rupees`, `₹`), then any 3-letter alphabetic code
uppercased. Non-strings resolve to nothing. -/
def normalizeCurrency : Val → Option String
  | Val.vstr s0 =>
    let s := pyStrip s0
    if s = "₹" then some "INR"
    else if s = "$" then some "USD"
    else
      let lc := pyLower s
      if lc = "inr" ∨ lc = "rs" ∨ lc = "rupees" ∨ lc = "₹" then some "INR"
      else if s.length = 3 ∧ s.data.all Char.isAlpha then some (pyUpper s)
      else none
  | _ => none

/-- Per-cell outcome of `validate_and_clean`. -/
structure CleanResult where
  value : Val
  valid : Bool
  reason : Option String := none
  suggestion : Option String := none
deriving DecidableEq, Repr

/-- Decimal digit list of a natural number (empty for `0`). -/
def natDigits : ℕ → List Char
  | 0 => []
  | n + 1 => natDigits ((n + 1) / 10) ++ [Char.ofNat (48 + (n + 1) % 10)]
decreasing_by exact Nat.div_lt_self (Nat.succ_pos n) (by norm_num)

/-- Decimal rendering of a natural number. -/
def natStr (n : ℕ) : String := if n = 0 then "0" else ⟨natDigits n⟩

/-- `f"{n:06d}"` for a known-nonnegative `n`. -/
def pad6 (n : ℤ) : String :=
  let d := natStr n.toNat
  ⟨List.replicate (6 - d.length) '0'⟩ ++ d

/-- The canonical fields given free-text handling
(`billing_address` … `subcategory`). -/
def freeTextFields : List String :=
  ["billing_address", "shipping_address", "city", "state", "country",
   "product_name", "category", "subcategory"]

/-- `validate_and_clean(canonical, value)`, field branch by field branch as in
the source. -/
def validate_and_clean (canonical : String) (value : Val) : CleanResult :=
  let orig := value
  let v := vStrip value
  if canonical = "order_id" then
    match v with
    | Val.vstr s =>
      let v2 := pyUpper s
      if orderIdMatch v2 then ⟨Val.vstr v2, true, none, none⟩
      else ⟨orig, false, some "Invalid order_id format", none⟩
    | _ => ⟨orig, false, some "Invalid order_id format", none⟩
  else if canonical = "order_date" then
    match v with
    | Val.vstr s =>
      match parse_date s with
      | some parsed => ⟨Val.vstr parsed, true, none, none⟩
      | none => ⟨orig, false, some "Unparseable date", none⟩
    | _ => ⟨orig, false, some "Unparseable date", none⟩
  else if canonical = "customer_id" then
    match v with
    | Val.vstr s =>
      let v2 := removeSpaces (pyUpper s)
      if custIdMatch v2 then ⟨Val.vstr v2, true, none, none⟩
      else ⟨orig, false, some "Invalid customer_id format", none⟩
    | _ => ⟨orig, false, some "Invalid customer_id format", none⟩
  else if canonical = "customer_name" then
    match v with
    | Val.vstr s => ⟨Val.vstr (pyStrip s), true, none, none⟩
    | _ => ⟨orig, true, none, none⟩
  else if canonical = "email" then
    match v with
    | Val.vstr s =>
      let s2 := removeSpaces s
      if emailMatch s2 then ⟨Val.vstr s2, true, none, none⟩
      else if hasDigitRun7 s2.data then
        ⟨Val.vnone, false, some "Phone found in email field", none⟩
      else ⟨Val.vnone, false, some "Invalid email", none⟩
    | _ => ⟨Val.vnone, false, some "Invalid email", none⟩
  else if canonical = "phone" then
    match v with
    | Val.vstr s =>
      let s2 := phoneCleanL s.data
      let digits := digitsOnlyL s2
      if s.data.contains '@' then
        ⟨Val.vnone, false, some "Email found in phone field", none⟩
      else if 7 ≤ digits.length then ⟨Val.vstr ⟨s2⟩, true, none, none⟩
      else ⟨Val.vnone, false, some "Invalid phone", none⟩
    | _ => ⟨orig, true, none, none⟩
  else if canonical ∈ freeTextFields then
    match v with
    | Val.vstr s => ⟨Val.vstr (pyStrip s), true, none, none⟩
    | _ => ⟨orig, true, none, none⟩
  else if canonical = "postal_code" then
    let numeric : Option ℤ :=
      match v with
      | Val.vint n => some n
      | Val.vnum q => some (roundHalfEven q)
      | _ => none
    match numeric with
    | some n =>
      if 0 ≤ n ∧ n ≤ 999999 then ⟨Val.vstr (pad6 n), true, none, none⟩
      else ⟨orig, false, some "Postal code must be 6 digits", none⟩
    | none =>
      match v with
      | Val.vstr s =>
        let s2 := removeSpaces s
        if pin6Match s2 then ⟨Val.vstr s2, true, none, none⟩
        else
          let ds := digitsOnlyL s2.data
          if ds.length = 6 then
            ⟨orig, false, some "Postal code must be 6 digits", some ⟨ds⟩⟩
          else ⟨orig, false, some "Postal code must be 6 digits", none⟩
      | _ => ⟨orig, false, some "Postal code must be 6 digits", none⟩
  else if canonical = "product_sku" then
    match v with
    | Val.vstr s =>
      let s2 := pyStrip (pyUpper s)
      if skuMatch s2 then ⟨Val.vstr s2, true, none, none⟩
      else ⟨orig, false, some "Invalid SKU format", none⟩
    | _ => ⟨orig, false, some "Invalid SKU format", none⟩
  else if canonical = "quantity" then
    match toInt? v with
    | some iv =>
      if 0 ≤ iv then ⟨Val.vint iv, true, none, none⟩
      else ⟨orig, false, some "Invalid quantity", none⟩
    | none => ⟨orig, false, some "Invalid quantity", none⟩
  else if canonical = "unit_price" then
    match toFloat? v with
    | some fv =>
      if 0 ≤ fv then ⟨Val.vnum fv, true, none, none⟩
      else ⟨orig, false, some "Invalid unit_price", none⟩
    | none => ⟨orig, false, some "Invalid unit_price", none⟩
  else if canonical = "currency" then
    match normalizeCurrency v with
    | some cv =>
      if cv ≠ "" then ⟨Val.vstr cv, true, none, none⟩
      else ⟨orig, false, some "Unknown currency", none⟩
    | none => ⟨orig, false, some "Unknown currency", none⟩
  else if canonical = "discount_pct" ∨ canonical = "tax_pct" then
    match toFraction? v with
    | some fv =>
      if 0 ≤ fv ∧ fv ≤ 1 then ⟨Val.vnum (round4 fv), true, none, none⟩
      else ⟨orig, false, some "Invalid percent value", none⟩
    | none => ⟨orig, false, some "Invalid percent value", none⟩
  else if canonical = "shipping_fee" then
    match toFloat? v with
    | some fv =>
      if 0 ≤ fv then ⟨Val.vnum fv, true, none, none⟩
      else ⟨orig, false, some "Invalid shipping_fee", none⟩
    | none => ⟨orig, false, some "Invalid shipping_fee", none⟩
  else if canonical = "total_amount" then
    match toFloat? v with
    | some fv =>
      if 0 ≤ fv then ⟨Val.vnum fv, true, none, none⟩
      else ⟨orig, false, some "Invalid total_amount", none⟩
    | none => ⟨orig, false, some "Invalid total_amount", none⟩
  else if canonical = "tax_id" then
    match v with
    | Val.vstr s =>
      let s2 := pyUpper (pyStrip s)
      if gstinMatch s2 then ⟨Val.vstr s2, true, none, none⟩
      else ⟨orig, false, some "Invalid GSTIN format", none⟩
    | _ => ⟨orig, false, some "Invalid GSTIN format", none⟩
  else ⟨orig, true, none, none⟩

/-! ### Header mapping (`mapper.py`) -/

/-- `_normalize_header`: trim, lowercase, collapse internal whitespace,
substitute `%` → " pct " and `#` → " num ", then strip every character
outside `[a-z0-9]` to produce the compact comparison key.  (Collapsing
whitespace cannot change the compact key, so it is modelled as the
identity it is after compaction.) -/
def normalizeHeader (text : String) : String :=
  let lc := (pyLower (pyStrip text)).data
  let subst := lc.flatMap (fun c =>
    if c = '%' then " pct ".data else if c = '#' then " num ".data else [c])
  ⟨subst.filter (fun c => c.isDigit ∨ ('a' ≤ c ∧ c ≤ 'z'))⟩

/-- One row of the Levenshtein dynamic program (unit costs). -/
def levAux (a : Char) : List Char → List ℕ → ℕ → List ℕ
  | [], _, _ => []
  | b :: bs, r0 :: r1 :: rest, prevNew =>
    let cur := min (r0 + (if a = b then 0 else 1)) (min (r1 + 1) (prevNew + 1))
    cur :: levAux a bs (r1 :: rest) cur
  | _ :: _, _, _ => []

def levRow (a : Char) (bs : List Char) (row : List ℕ) : List ℕ :=
  match row with
  | r0 :: _ => (r0 + 1) :: levAux a bs row (r0 + 1)
  | [] => []

/-- Levenshtein edit distance (unit costs), by the standard row recurrence. -/
def lev (as bs : List Char) : ℕ :=
  ((as.foldl (fun row a => levRow a bs row) (List.range (bs.length + 1))).getLast?).getD 0

/-- `rapidfuzz.distance.Levenshtein.normalized_similarity`:
`1 - distance / max(len a, len b)`, and `1` when both inputs are empty.
(The source computes this in binary floating point; the exact rational value
is used here.) -/
def normSim (a b : String) : ℚ :=
  let m := max a.data.length b.data.length
  if m = 0 then 1 else Rat.divInt ((m : ℤ) - lev a.data b.data) m

/-- One `HeaderMapping` record: `{"canonical": …, "confidence": …,
"method": …}`. -/
structure MapRec where
  canonical : Option String
  confidence : ℚ
  method : String
deriving DecidableEq, Repr

/-- Schema metadata for one canonical field, as prepared by
`load_schema_truth`: the lowercased synonym list `_syn_lc`, the compiled
header pattern `_header_re` (abstracted to a Boolean matcher, `none` when
absent or failed to compile), and the `description` used for repair
requests. -/
structure Meta where
  syn_lc : List String := []
  header_re : Option (String → Bool) := none
  description : String := ""

/-- `SchemaTruth`: insertion-ordered mapping from canonical field name to
metadata. -/
abbrev Truth := List (String × Meta)

/-- First-match association-list lookup (Python `dict` read). -/
def lookupA {α : Type} (l : List (String × α)) (k : String) : Option α :=
  (l.find? (fun p => p.1 = k)).map (fun p => p.2)

/-- Python `dict` write `d[k] = v`: update in place if the key is present
(keeping its position), otherwise append. -/
def upsert {α : Type} (l : List (String × α)) (k : String) (v : α) :
    List (String × α) :=
  if l.any (fun p => p.1 = k) then
    l.map (fun p => if p.1 = k then (k, v) else p)
  else l ++ [(k, v)]

/-- Python truthiness of an optional string (`None` and `""` are falsy). -/
def falsyStr : Option String → Bool
  | none => true
  | some c => c = ""

/-- The synonym lookup `syn_to_canon` built by `suggest_mapping`: for each
field in order, each `_syn_lc` entry and then each learned synonym is
normalized and mapped to the field, later entries overwriting earlier ones. -/
def buildSynToCanon (truth : Truth) (learned : List (String × List String)) :
    List (String × String) :=
  truth.foldl (fun m p =>
    (p.2.syn_lc ++ ((lookupA learned p.1).getD [])).foldl
      (fun m s => upsert m (normalizeHeader s) p.1) m) []

/-- The body of the LLM fallback loop of `suggest_mapping`. -/
def llmStep (truth : Truth) (llmResp : List (String × String))
    (r : List (String × MapRec)) (src : String) : List (String × MapRec) :=
  match lookupA llmResp src with
  | some canon =>
    if truth.any (fun p => p.1 = canon) then
      upsert r src ⟨some canon, mkRat 70 100, "llm"⟩
    else upsert r src ⟨none, 0, "unmapped"⟩
  | none => upsert r src ⟨none, 0, "unmapped"⟩

/-- The per-header matching cascade of `suggest_mapping`, threading the
`(result, unmatched)` state. -/
def cascadeStep (truth : Truth) (synToCanon : List (String × String))
    (st : List (String × MapRec) × List String) (src : String) :
    List (String × MapRec) × List String :=
  let norm := normalizeHeader src
  -- 1) exact canonical key match
  match truth.find? (fun p => normalizeHeader p.1 = norm) with
  | some p => (upsert st.1 src ⟨some p.1, 1, "canonical"⟩, st.2)
  | none =>
    -- 2) regex header match, canonical declaration order
    match truth.find? (fun p => (p.2.header_re.map (fun f => f src)).getD false) with
    | some p => (upsert st.1 src ⟨some p.1, mkRat 90 100, "regex"⟩, st.2)
    | none =>
      -- 3) direct synonym match
      match lookupA synToCanon norm with
      | some canon => (upsert st.1 src ⟨some canon, mkRat 95 100, "synonym"⟩, st.2)
      | none =>
        -- 4) fuzzy tie-breaker: best (field, score) with strict improvement
        let high := truth.foldl (fun h p =>
          p.2.syn_lc.foldl (fun h s =>
            let score := normSim norm (normalizeHeader s)
            if h.2 < score then (some p.1, score) else h) h)
          ((none : Option String), (0 : ℚ))
        if ¬ falsyStr high.1 ∧ mkRat 85 100 ≤ high.2 then
          (upsert st.1 src ⟨high.1, mkRat 82 100, "fuzzy"⟩, st.2)
        else (st.1, st.2 ++ [src])

/-- `suggest_mapping`.  The external fallback `map_headers_with_llm` is
modelled by its response `llmResp`; headers it maps to a known canonical key
get `(0.70, llm)` records, the rest `(None, 0, unmapped)` records, and the
returned unmatched list is re-filtered by Python truthiness of the mapped
canonical value. -/
def suggest_mapping (sourceHeaders : List String) (truth : Truth)
    (learned : List (String × List String)) (use_llm : Bool)
    (llmResp : List (String × String)) :
    List (String × MapRec) × List String :=
  let synToCanon := buildSynToCanon truth learned
  let st := sourceHeaders.foldl (cascadeStep truth synToCanon) ([], [])
  if use_llm ∧ st.2 ≠ [] then
    let result := st.2.foldl (llmStep truth llmResp) st.1
    let still := st.2.filter (fun s =>
      match lookupA result s with
      | none => true
      | some rec => falsyStr rec.canonical)
    (result, still)
  else st

/-- `apply_mapping_overrides`: per mapped header, take the override when one
exists (including an explicit `None`), else keep the engine's choice; a
changed choice gets `(1.00, override)`, an unchanged one keeps confidence and
method. -/
def apply_mapping_overrides (mappingResult : List (String × MapRec))
    (overrides : List (String × Option String)) : List (String × MapRec) :=
  mappingResult.map (fun p =>
    let canon := match lookupA overrides p.1 with
      | some ov => ov
      | none => p.2.canonical
    (p.1,
      if canon = p.2.canonical then ⟨canon, p.2.confidence, p.2.method⟩
      else ⟨canon, 1, "override"⟩))

/-! ### The cleaning pass (`build_proposed_clean_df`) -/

/-- A materialized table: columns in order, each with its list of cell values
(all columns the same length; row labels are positions `0, 1, …` as with the
default pandas `RangeIndex`). -/
abbrev Df := List (String × List Val)

/-- Column lookup `df[c]`. -/
def lookupCol (df : Df) (c : String) : Option (List Val) :=
  (df.find? (fun p => p.1 = c)).map (fun p => p.2)

/-- `raw_df.loc[idx]`: the row at a position, as (column, cell) pairs. -/
def rawRow (df : Df) (idx : ℕ) : List (String × Val) :=
  df.map (fun p => (p.1, p.2.getD idx Val.vnone))

/-- The helper columns scanned for email/phone hints: every raw header whose
lowercase form contains one of the keywords. -/
def helperColsOf (rawCols : List String) : List String :=
  rawCols.filter (fun c =>
    ["contact", "mobile", "phone", "email", "e-mail"].any
      (fun k => containsSubL (pyLower c).data k.data))

/-- `_extract_email_from_row`: first helper column whose non-empty stringified
cell fully matches the email pattern (returning the cell) or contains an email
(returning the found group). -/
def extractEmailFromRow (row : List (String × Val)) :
    List String → Option String
  | [] => none
  | c :: rest =>
    match (row.find? (fun p => p.1 = c)).map (fun p => p.2) with
    | none => extractEmailFromRow row rest
    | some cell =>
      let val := pyStrip (pyValStr cell)
      if val = "" then extractEmailFromRow row rest
      else if emailMatch val then some val
      else
        match findEmail val.data with
        | some g => some ⟨g⟩
        | none => extractEmailFromRow row rest

/-- `_extract_phone_from_row`: first helper column whose non-empty stringified
cell keeps at least 7 digits after restriction to `[0-9+]`; the restricted
characters are returned. -/
def extractPhoneFromRow (row : List (String × Val)) :
    List String → Option String
  | [] => none
  | c :: rest =>
    match (row.find? (fun p => p.1 = c)).map (fun p => p.2) with
    | none => extractPhoneFromRow row rest
    | some cell =>
      let val := pyStrip (pyValStr cell)
      if val = "" then extractPhoneFromRow row rest
      else
        let digits := phoneCleanL val.data
        if 7 ≤ (digitsOnlyL digits).length then some ⟨digits⟩
        else extractPhoneFromRow row rest

/-- One issue record. `row_index = none` models the `None` of column-level
issues; `proposal` carries the opaque payload of a field-discovery proposal. -/
structure Issue where
  row_index : Option ℕ
  column : String
  value : Val
  reason : String
  suggestion : Option String := none
  proposal : Option String := none
deriving DecidableEq, Repr

/-- The null/missing test of the validation loop:
`val is None or NaN or (str and strip empty)`. -/
def isEmptyCell : Val → Bool
  | Val.vnone => true
  | Val.vstr s => pyStrip s = ""
  | _ => false

/-- Keep a canonical choice only when truthy (`if m.get("canonical")`). -/
def truthyCanon : Option String → Option String
  | some c => if c = "" then none else some c
  | none => none

/-- Deduplicate `(source, canonical)` pairs by first occurrence of the
canonical field. -/
def dedupeByCanon : List (String × String) → List String → List (String × String)
  | [], _ => []
  | p :: ps, seen =>
    if seen.contains p.2 then dedupeByCanon ps seen
    else p :: dedupeByCanon ps (p.2 :: seen)

/-- One cell of step 3 of `build_proposed_clean_df`: returns the cleaned value
and the issues emitted for this cell.  `cleanResp` is the response function of
the cell-repair collaborator (`clean_value_with_llm`), taking the column, the
stringified value and the field description. -/
def processCell (raw : Df) (truth : Truth) (helpers : List String)
    (use_llm : Bool) (cleanResp : String → String → String → Option String)
    (col : String) (idx : ℕ) (val : Val) : Val × List Issue :=
  let row := rawRow raw idx
  if isEmptyCell val then
    if col = "email" then
      (val, [{ row_index := some idx, column := col, value := val,
               reason := "Null or empty",
               suggestion := extractEmailFromRow row helpers }])
    else if col = "phone" then
      (val, [{ row_index := some idx, column := col, value := val,
               reason := "Null or empty",
               suggestion := extractPhoneFromRow row helpers }])
    else
      (val, [{ row_index := some idx, column := col, value := val,
               reason := "Null or empty" }])
  else
    let res := validate_and_clean col val
    if res.valid then (res.value, [])
    else
      let sugg : Option String :=
        match res.suggestion with
        | some s => some s
        | none =>
          if col = "email" then extractEmailFromRow row helpers
          else if col = "phone" then extractPhoneFromRow row helpers
          else if use_llm then
            cleanResp col (pyValStr val)
              (((lookupA truth col).map (fun m => m.description)).getD "")
          else none
      (res.value, [{ row_index := some idx, column := col, value := val,
                     reason := (res.reason).getD "", suggestion := sugg }])

/-- Step 3 of `build_proposed_clean_df` for one column. -/
def processColumn (raw : Df) (truth : Truth) (helpers : List String)
    (use_llm : Bool) (cleanResp : String → String → String → Option String)
    (col : String) (vals : List Val) : (String × List Val) × List Issue :=
  let cells := (List.range vals.length).map (fun idx =>
    processCell raw truth helpers use_llm cleanResp col idx (vals.getD idx Val.vnone))
  ((col, cells.map (fun p => p.1)), (cells.map (fun p => p.2)).flatten)

/-- Step 0 of `build_proposed_clean_df`: the truthy `{source: canonical}`
pairs of the mapping. -/
def mappedCanonOf (mappingResult : List (String × MapRec)) :
    List (String × String) :=
  mappingResult.filterMap (fun p =>
    (truthyCanon p.2.canonical).map (fun c => (p.1, c)))

/-- Step 1: mapped pairs restricted to columns present in the raw table. -/
def sourceToCanonOf (raw : Df) (mappingResult : List (String × MapRec)) :
    List (String × String) :=
  (mappedCanonOf mappingResult).filter
    (fun p => (raw.map (fun q => q.1)).contains p.1)

/-- Step 1: duplicate canonical targets resolved by first occurrence. -/
def orderedPairsOf (raw : Df) (mappingResult : List (String × MapRec)) :
    List (String × String) :=
  dedupeByCanon (sourceToCanonOf raw mappingResult) []

/-- Step 1: the mapped DataFrame (canonical name, source column values). -/
def mappedDfOf (raw : Df) (mappingResult : List (String × MapRec)) : Df :=
  (orderedPairsOf raw mappingResult).map
    (fun p => (p.2, (lookupCol raw p.1).getD []))

/-- Number of rows of the mapped frame (an empty dict gives a 0-row frame). -/
def mappedNRows (raw : Df) (mappingResult : List (String × MapRec)) : ℕ :=
  match mappedDfOf raw mappingResult with
  | [] => 0
  | p :: _ => p.2.length

/-- Step 2: canonical columns missing from the mapped frame are appended as
all-`None` columns. -/
def mappedDf2Of (raw : Df) (mappingResult : List (String × MapRec))
    (truth : Truth) : Df :=
  mappedDfOf raw mappingResult ++
    ((truth.map (fun p => p.1)).filter
      (fun c => lookupCol (mappedDfOf raw mappingResult) c = none)).map
      (fun c => (c, List.replicate (mappedNRows raw mappingResult) Val.vnone))

/-- Step 2: the canonical columns present, in canonical declaration order. -/
def colsInOrderOf (raw : Df) (mappingResult : List (String × MapRec))
    (truth : Truth) : List String :=
  (truth.map (fun p => p.1)).filter
    (fun c => (lookupCol (mappedDf2Of raw mappingResult truth) c).isSome)

/-- Step 2: the reshaped table before validation. -/
def proposedColsOf (raw : Df) (mappingResult : List (String × MapRec))
    (truth : Truth) : Df :=
  (colsInOrderOf raw mappingResult truth).map
    (fun c => (c, (lookupCol (mappedDf2Of raw mappingResult truth) c).getD []))

/-- Step 3 over all columns. -/
def perColOf (raw : Df) (mappingResult : List (String × MapRec))
    (truth : Truth) (use_llm : Bool)
    (cleanResp : String → String → String → Option String) :
    List ((String × List Val) × List Issue) :=
  (proposedColsOf raw mappingResult truth).map (fun p =>
    processColumn raw truth (helperColsOf (raw.map (fun q => q.1)))
      use_llm cleanResp p.1 p.2)

/-- `build_proposed_clean_df`, assembled from the stages above.  External
collaborators are modelled by their responses: `proposeResp` stands for the
value of `propose_schema_for_headers(unmapped_headers, samples)` (payloads
opaque) and `cleanResp` for `clean_value_with_llm`.  The unused `clean_pack`
argument of the source is omitted. -/
def build_proposed_clean_df (raw : Df) (mappingResult : List (String × MapRec))
    (truth : Truth) (use_llm : Bool)
    (proposeResp : List (String × String))
    (cleanResp : String → String → String → Option String) :
    Df × List Issue :=
  -- 0) unmapped headers and schema proposals
  let rawCols := raw.map (fun p => p.1)
  let unmappedHeaders := rawCols.filter
    (fun c => ¬ (mappedCanonOf mappingResult).any (fun p => p.1 = c))
  let schemaProposals := if use_llm ∧ unmappedHeaders ≠ [] then proposeResp else []
  -- 1)–3) reshape and validate
  let canonOrder := truth.map (fun p => p.1)
  let perCol := perColOf raw mappingResult truth use_llm cleanResp
  let proposed : Df := perCol.map (fun p => p.1)
  let issues3 := (perCol.map (fun p => p.2)).flatten
  -- 4) missing canonical columns summary
  let missing := canonOrder.filter (fun c => lookupCol proposed c = none)
  let issues4 := missing.map (fun c =>
    ({ row_index := none, column := c, value := Val.vnone,
       reason := "Missing column (unmapped)" } : Issue))
  -- 5) extra columns summary and schema proposals
  let extraCols := rawCols.filter
    (fun c => ¬ (sourceToCanonOf raw mappingResult).any (fun p => p.1 = c))
  let issues5 := extraCols.map (fun c =>
    ({ row_index := none, column := c, value := Val.vnone,
       reason := "Extra column" } : Issue))
  let issuesP := schemaProposals.map (fun p =>
    ({ row_index := none, column := p.1, value := Val.vnone,
       reason := "New header proposal", proposal := some p.2 } : Issue))
  (proposed, issues3 ++ issues4 ++ issues5 ++ issuesP)

/-! ### General lemmas -/

theorem dropWhile_of_append_eq {p : Char → Bool} {l r t : List Char}
    (hl : List.dropWhile p l = l) (ht : r ++ t = l) :
    List.dropWhile p r = r := by
  cases r with
  | nil => rfl
  | cons a rs =>
    subst ht
    rw [List.dropWhile_eq_self_iff] at hl
    have ha := hl (by simp)
    simp only [List.get] at ha
    simp [List.dropWhile_cons, ha]

theorem stripL_eq (cs : List Char) :
    stripL cs = List.rdropWhile isPySpace (List.dropWhile isPySpace cs) := rfl

theorem stripL_idem (cs : List Char) : stripL (stripL cs) = stripL cs := by
  rw [stripL_eq, stripL_eq]
  have hfront : List.dropWhile isPySpace
      (List.rdropWhile isPySpace (List.dropWhile isPySpace cs)) =
      List.rdropWhile isPySpace (List.dropWhile isPySpace cs) := by
    obtain ⟨t, ht⟩ := List.rdropWhile_prefix isPySpace (List.dropWhile isPySpace cs)
    exact dropWhile_of_append_eq (List.dropWhile_idempotent isPySpace cs) ht
  rw [hfront, List.rdropWhile_idempotent]

theorem pyStrip_idem (s : String) : pyStrip (pyStrip s) = pyStrip s :=
  congrArg String.mk (stripL_idem s.data)

theorem stripL_of_no_space {cs : List Char}
    (h : ∀ c ∈ cs, isPySpace c = false) : stripL cs = cs := by
  rw [stripL_eq]
  have h1 : List.dropWhile isPySpace cs = cs := by
    rw [List.dropWhile_eq_self_iff]
    intro hl
    simp [h _ (List.getElem_mem hl)]
  rw [h1, List.rdropWhile_eq_self_iff]
  intro hl
  simp [h _ (List.getLast_mem hl)]

theorem pyStrip_of_no_space {s : String}
    (h : ∀ c ∈ s.data, isPySpace c = false) : pyStrip s = s := by
  have : pyStrip s = ⟨s.data⟩ := congrArg String.mk (stripL_of_no_space h)
  simpa using this

theorem toFraction?_vStrip (v : Val) : toFraction? (vStrip v) = toFraction? v := by
  cases v <;> simp [vStrip, toFraction?, pyStrip_idem]

/-- The `discount_pct` branch of `validate_and_clean`, extracted. -/
theorem validate_discount (value : Val) :
    validate_and_clean "discount_pct" value =
      (match toFraction? (vStrip value) with
      | some fv => if 0 ≤ fv ∧ fv ≤ 1 then ⟨Val.vnum (round4 fv), true, none, none⟩
                   else ⟨value, false, some "Invalid percent value", none⟩
      | none => ⟨value, false, some "Invalid percent value", none⟩) := by
  simp [validate_and_clean, freeTextFields]

/-! ## Claims -/

/-! ### C7: percent-field normalization -/

/-- C7: for `discount_pct`, the inputs `"15%"`, `0.15` and `15` all clean to
`0.15`; in general, when coercion produces a fraction `q` the value is valid
iff `q ∈ [0,1]`, in which case the cleaned value is `q` rounded to 4 decimals,
and when coercion fails the value is invalid. -/
theorem discount_pct_fraction_rule :
    (mkRat 15 100 : ℚ) = 15/100 ∧
    (validate_and_clean "discount_pct" (Val.vstr "15%") =
      ⟨Val.vnum (mkRat 15 100), true, none, none⟩) ∧
    (validate_and_clean "discount_pct" (Val.vnum (mkRat 15 100)) =
      ⟨Val.vnum (mkRat 15 100), true, none, none⟩) ∧
    (validate_and_clean "discount_pct" (Val.vint 15) =
      ⟨Val.vnum (mkRat 15 100), true, none, none⟩) ∧
    (∀ v q, toFraction? v = some q →
      (((validate_and_clean "discount_pct" v).valid = true) ↔ 0 ≤ q ∧ q ≤ 1) ∧
      (0 ≤ q ∧ q ≤ 1 →
        (validate_and_clean "discount_pct" v).value = Val.vnum (round4 q))) ∧
    (∀ v, toFraction? v = none →
      (validate_and_clean "discount_pct" v).valid = false) := by
  refine ⟨by rw [Rat.mkRat_eq_divInt, Rat.divInt_eq_div]; norm_num,
    by decide, by decide, by decide, ?_, ?_⟩
  · intro v q h
    rw [validate_discount, toFraction?_vStrip, h]
    constructor
    · dsimp only
      split <;> simp_all
    · intro hq
      simp [hq]
  · intro v h
    rw [validate_discount, toFraction?_vStrip, h]

/-- Witness for the quantified parts of `discount_pct_fraction_rule`. -/
theorem discount_pct_fraction_rule_witness :
    ((validate_and_clean "discount_pct" (Val.vstr "0.5")).valid = true) ∧
    (validate_and_clean "discount_pct" (Val.vstr "0.5")).value =
      Val.vnum (round4 (mkRat 1 2)) ∧
    (validate_and_clean "discount_pct" (Val.vstr "abc")).valid = false := by
  have h := discount_pct_fraction_rule.2.2.2.2.1 (Val.vstr "0.5") (mkRat 1 2)
    (by decide)
  have h2 := discount_pct_fraction_rule.2.2.2.2.2 (Val.vstr "abc") (by decide)
  exact ⟨h.1.mpr (by decide), h.2 (by decide), h2⟩

/-! ### C8: unrecognized canonical fields -/

/-- The canonical field names carrying a specific validator rule. -/
def recognizedFields : List String :=
  ["order_id", "order_date", "customer_id", "customer_name", "email", "phone",
   "postal_code", "product_sku", "quantity", "unit_price", "currency",
   "discount_pct", "tax_pct", "shipping_fee", "total_amount", "tax_id"] ++
  freeTextFields

/-- C8 counterexample: for an unrecognized canonical field the value is
returned valid but NOT trimmed — the original string, leading and trailing
whitespace included, is passed through. -/
theorem unrecognized_field_not_trimmed :
    validate_and_clean "mystery_field" (Val.vstr "  x ") =
      ⟨Val.vstr "  x ", true, none, none⟩ ∧
    pyStrip "  x " = "x" ∧ ("  x " : String) ≠ "x" := by decide

/-- C8 (amended): for every canonical field name not recognized by any
specific validator rule, `validate_and_clean` returns the value unchanged
(untrimmed) and valid. -/
theorem unrecognized_field_passthrough :
    ∀ c, c ∉ recognizedFields →
      ∀ v, validate_and_clean c v = ⟨v, true, none, none⟩ := by
  intro c hc v
  simp only [recognizedFields, freeTextFields, List.mem_append, List.mem_cons,
    List.not_mem_nil, or_false, not_or] at hc
  obtain ⟨⟨h1, h2, h3, h4, h5, h6, h7, h8, h9, h10, h11, h12, h13, h14, h15,
    h16⟩, h17, h18, h19, h20, h21, h22, h23, h24⟩ := hc
  simp [validate_and_clean, freeTextFields, h1, h2, h3, h4, h5, h6, h7, h8,
    h9, h10, h11, h12, h13, h14, h15, h16, h17, h18, h19, h20, h21, h22, h23,
    h24]

/-- Witness for `unrecognized_field_passthrough`. -/
theorem unrecognized_field_passthrough_witness :
    validate_and_clean "grand_total" (Val.vstr " y ") =
      ⟨Val.vstr " y ", true, none, none⟩ :=
  unrecognized_field_passthrough "grand_total" (by decide) (Val.vstr " y ")

/-! ### C10: frame of `apply_mapping_overrides` -/

/-- C10: `apply_mapping_overrides` keeps exactly the input mapping's source
headers (override entries for other headers have no effect on the key set),
and every entry with no override, or whose override equals the existing
canonical choice, is returned entirely unchanged. -/
theorem apply_overrides_frame :
    ∀ (m : List (String × MapRec)) (ov : List (String × Option String)),
      ((apply_mapping_overrides m ov).map (fun p => p.1) =
        m.map (fun p => p.1)) ∧
      (∀ s meta, (s, meta) ∈ m →
        (lookupA ov s = none ∨ lookupA ov s = some meta.canonical) →
        (s, meta) ∈ apply_mapping_overrides m ov) := by
  intro m ov
  constructor
  · simp [apply_mapping_overrides]
  · intro s meta hm hov
    have hcanon : (match lookupA ov s with
        | some o => o
        | none => meta.canonical) = meta.canonical := by
      rcases hov with h | h <;> rw [h]
    refine List.mem_map.mpr ⟨(s, meta), hm, ?_⟩
    simp [hcanon]

/-- Witness for `apply_overrides_frame`. -/
theorem apply_overrides_frame_witness :
    ("h1", (⟨some "order_id", mkRat 82 100, "fuzzy"⟩ : MapRec)) ∈
      apply_mapping_overrides
        [("h1", ⟨some "order_id", mkRat 82 100, "fuzzy"⟩)]
        [("other", some "email")] :=
  (apply_overrides_frame [("h1", ⟨some "order_id", mkRat 82 100, "fuzzy"⟩)]
      [("other", some "email")]).2 "h1" ⟨some "order_id", mkRat 82 100, "fuzzy"⟩
    (by decide) (Or.inl (by decide))

/-! ### Association-list lemmas for the mapping dictionaries -/

theorem mem_upsert {α : Type} {l : List (String × α)} {k : String} {v : α}
    {p : String × α} (h : p ∈ upsert l k v) : p = (k, v) ∨ p ∈ l := by
  unfold upsert at h
  split at h
  · obtain ⟨q, hq, hqe⟩ := List.mem_map.mp h
    by_cases hk : q.1 = k
    · simp only [hk, if_pos] at hqe
      exact Or.inl hqe.symm
    · simp only [hk, if_neg, not_false_iff] at hqe
      exact Or.inr (hqe ▸ hq)
  · rcases List.mem_append.mp h with h1 | h1
    · exact Or.inr h1
    · exact Or.inl (by simpa using h1)

theorem lookupA_upsert_self {α : Type} (l : List (String × α)) (k : String)
    (v : α) : lookupA (upsert l k v) k = some v := by
  unfold upsert lookupA
  split
  · rename_i hany
    induction l with
    | nil => simp at hany
    | cons p t ih =>
      by_cases hp : p.1 = k
      · simp [List.find?, hp]
      · have : t.any (fun q => q.1 = k) := by
          simpa [List.any_cons, hp] using hany
        simpa [List.find?, hp] using ih this
  · induction l with
    | nil => simp [List.find?]
    | cons p t ih =>
      rename_i hany
      have hp : ¬ p.1 = k := by
        intro hk
        exact hany (by simp [List.any_cons, hk])
      have ht : ¬ t.any (fun q => q.1 = k) = true := by
        intro hk
        exact hany (by simp [List.any_cons, hk])
      simpa [List.find?, hp] using ih ht

theorem lookupA_map_update_ne {α : Type} (k k' : String) (v : α)
    (hne : k ≠ k') : ∀ l : List (String × α),
    lookupA (l.map (fun p => if p.1 = k then (k, v) else p)) k' = lookupA l k'
  | [] => rfl
  | p :: t => by
    unfold lookupA
    by_cases hp : p.1 = k
    · have h1 : ¬ (k : String) = k' := hne
      have h2 : ¬ p.1 = k' := by rw [hp]; exact hne
      simp only [List.map_cons, if_pos hp, List.find?_cons,
        decide_eq_true_eq]
      simp only [h1, h2, decide_False]
      exact lookupA_map_update_ne k k' v hne t
    · simp only [List.map_cons, if_neg hp, List.find?_cons]
      by_cases hp' : p.1 = k'
      · simp [hp']
      · simp only [hp', decide_False]
        exact lookupA_map_update_ne k k' v hne t

theorem lookupA_append_single_ne {α : Type} (k k' : String) (v : α)
    (hne : k ≠ k') : ∀ l : List (String × α),
    lookupA (l ++ [(k, v)]) k' = lookupA l k'
  | [] => by simp [lookupA, List.find?, hne]
  | p :: t => by
    unfold lookupA
    by_cases hp' : p.1 = k'
    · simp [List.find?_cons, hp']
    · simp only [List.cons_append, List.find?_cons, hp', decide_False]
      exact lookupA_append_single_ne k k' v hne t

theorem lookupA_upsert_ne {α : Type} (l : List (String × α)) (k k' : String)
    (v : α) (hne : k ≠ k') : lookupA (upsert l k v) k' = lookupA l k' := by
  unfold upsert
  split
  · exact lookupA_map_update_ne k k' v hne l
  · exact lookupA_append_single_ne k k' v hne l

theorem lookupA_isSome_upsert {α : Type} (l : List (String × α)) (k k' : String)
    (v : α) (h : (lookupA l k').isSome) :
    (lookupA (upsert l k v) k').isSome := by
  by_cases hk : k = k'
  · subst hk
    simp [lookupA_upsert_self]
  · rwa [lookupA_upsert_ne _ _ _ _ hk]

theorem lookupA_none_iff {α : Type} (l : List (String × α)) (k : String) :
    lookupA l k = none ↔ k ∉ l.map (fun p => p.1) := by
  unfold lookupA
  induction l with
  | nil => simp
  | cons p t ih =>
    by_cases hp : p.1 = k
    · simp [List.find?, hp]
    · simp only [List.find?, hp]
      simpa [List.map_cons, hp, Ne.symm hp] using ih

/-! ### C2: the `canonical = none` invariant -/

/-- The record invariant of the claim. -/
def recOk (r : MapRec) : Prop :=
  r.canonical = none → r.method = "unmapped" ∧ r.confidence = 0

theorem recOk_some {c : Option String} {q : ℚ} {m : String} (x : String)
    (h : c = some x) : recOk ⟨c, q, m⟩ := by
  intro hnone
  rw [h] at hnone
  cases hnone

theorem recOk_unmapped : recOk ⟨none, 0, "unmapped"⟩ := fun _ => ⟨rfl, rfl⟩

/-- One cascade step inserts only invariant-respecting records. -/
theorem cascadeStep_mem {truth : Truth} {syn : List (String × String)}
    {acc : List (String × MapRec) × List String} {src s : String} {rec : MapRec}
    (hmem : (s, rec) ∈ (cascadeStep truth syn acc src).1) :
    recOk rec ∨ (s, rec) ∈ acc.1 := by
  unfold cascadeStep at hmem
  dsimp only at hmem
  rcases hf1 : List.find?
      (fun p => decide (normalizeHeader p.1 = normalizeHeader src)) truth
    with _ | p1
  all_goals rw [hf1] at hmem; dsimp only at hmem
  case some =>
    rcases mem_upsert hmem with h | h
    · exact Or.inl ((Prod.mk.injEq _ _ _ _ ▸ h).2 ▸ recOk_some p1.1 rfl)
    · exact Or.inr h
  rcases hf2 : List.find?
      (fun p => (Option.map (fun f => f src) p.2.header_re).getD false) truth
    with _ | p2
  all_goals rw [hf2] at hmem; dsimp only at hmem
  case some =>
    rcases mem_upsert hmem with h | h
    · exact Or.inl ((Prod.mk.injEq _ _ _ _ ▸ h).2 ▸ recOk_some p2.1 rfl)
    · exact Or.inr h
  rcases hf3 : lookupA syn (normalizeHeader src) with _ | canon
  all_goals rw [hf3] at hmem; dsimp only at hmem
  case some =>
    rcases mem_upsert hmem with h | h
    · exact Or.inl ((Prod.mk.injEq _ _ _ _ ▸ h).2 ▸ recOk_some canon rfl)
    · exact Or.inr h
  split at hmem
  · rename_i hcond
    rcases mem_upsert hmem with h | h
    · rcases hh : (truth.foldl (fun h p => p.2.syn_lc.foldl (fun h s =>
          let score := normSim (normalizeHeader src) (normalizeHeader s)
          if h.2 < score then (some p.1, score) else h) h)
          ((none : Option String), (0 : ℚ))).1 with _ | c
      · rw [hh] at hcond
        exact absurd rfl hcond.1
      · exact Or.inl ((Prod.mk.injEq _ _ _ _ ▸ h).2 ▸ recOk_some c hh)
    · exact Or.inr h
  · exact Or.inr hmem

/-- The cascade preserves the record invariant. -/
theorem cascade_fold_recOk (headers : List String) (truth : Truth)
    (syn : List (String × String)) (acc : List (String × MapRec) × List String)
    (hacc : ∀ s rec, (s, rec) ∈ acc.1 → recOk rec) :
    ∀ s rec, (s, rec) ∈ (headers.foldl (cascadeStep truth syn) acc).1 →
      recOk rec := by
  induction headers generalizing acc with
  | nil => exact hacc
  | cons hd tl ih =>
    rw [List.foldl_cons]
    apply ih
    intro s rec hmem
    rcases cascadeStep_mem hmem with h | h
    · exact h
    · exact hacc s rec h

theorem llmStep_mem {truth : Truth} {llmResp : List (String × String)}
    {r : List (String × MapRec)} {src s : String} {rec : MapRec}
    (hmem : (s, rec) ∈ llmStep truth llmResp r src) :
    recOk rec ∨ (s, rec) ∈ r := by
  unfold llmStep at hmem
  rcases hf : lookupA llmResp src with _ | canon
  all_goals rw [hf] at hmem; dsimp only at hmem
  case none =>
    rcases mem_upsert hmem with h | h
    · exact Or.inl ((Prod.mk.injEq _ _ _ _ ▸ h).2 ▸ recOk_unmapped)
    · exact Or.inr h
  split at hmem
  · rcases mem_upsert hmem with h | h
    · exact Or.inl ((Prod.mk.injEq _ _ _ _ ▸ h).2 ▸ recOk_some canon rfl)
    · exact Or.inr h
  · rcases mem_upsert hmem with h | h
    · exact Or.inl ((Prod.mk.injEq _ _ _ _ ▸ h).2 ▸ recOk_unmapped)
    · exact Or.inr h

/-- The LLM fallback loop preserves the record invariant. -/
theorem llm_fold_recOk (srcs : List String) (truth : Truth)
    (llmResp : List (String × String)) (r : List (String × MapRec))
    (hr : ∀ s rec, (s, rec) ∈ r → recOk rec) :
    ∀ s rec, (s, rec) ∈ srcs.foldl (llmStep truth llmResp) r → recOk rec := by
  induction srcs generalizing r with
  | nil => exact hr
  | cons hd tl ih =>
    rw [List.foldl_cons]
    apply ih
    intro s rec hmem
    rcases llmStep_mem hmem with h | h
    · exact h
    · exact hr s rec h

/-- `suggest_mapping`, written with the named loop body. -/
theorem suggest_mapping_eq (headers : List String) (truth : Truth)
    (learned : List (String × List String)) (use_llm : Bool)
    (llmResp : List (String × String)) :
    suggest_mapping headers truth learned use_llm llmResp =
      (let st := headers.foldl
        (cascadeStep truth (buildSynToCanon truth learned)) ([], [])
      if use_llm ∧ st.2 ≠ [] then
        let result := st.2.foldl (llmStep truth llmResp) st.1
        (result, st.2.filter (fun s =>
          match lookupA result s with
          | none => true
          | some rec => falsyStr rec.canonical))
      else st) := rfl

/-- Every record of a `suggest_mapping` result satisfies the invariant. -/
theorem suggest_mapping_recOk (headers : List String) (truth : Truth)
    (learned : List (String × List String)) (use_llm : Bool)
    (llmResp : List (String × String)) :
    ∀ s rec, (s, rec) ∈ (suggest_mapping headers truth learned use_llm llmResp).1 →
      recOk rec := by
  intro s rec
  rw [suggest_mapping_eq]
  have hbase := cascade_fold_recOk headers truth (buildSynToCanon truth learned)
    ([], []) (by intro _ _ h; cases h)
  by_cases hc : (use_llm = true) ∧
      (headers.foldl (cascadeStep truth (buildSynToCanon truth learned))
        ([], [])).2 ≠ []
  · rw [if_pos hc]
    exact fun hmem => llm_fold_recOk _ truth llmResp _ hbase s rec hmem
  · rw [if_neg hc]
    exact hbase s rec

/-- C2 counterexample: an explicit `None` override on a mapped header yields
the record `{canonical: None, confidence: 1.0, method: "override"}`, violating
the `canonical = none → method = unmapped ∧ confidence = 0` invariant. -/
theorem override_none_breaks_invariant :
    apply_mapping_overrides [("h", ⟨some "order_id", 1, "canonical"⟩)]
        [("h", none)] =
      [("h", ⟨none, 1, "override"⟩)] ∧
    ("override" : String) ≠ "unmapped" ∧ (1 : ℚ) ≠ 0 := by decide

/-- C2 (amended): every record produced by `suggest_mapping` (with or without
the external fallback) satisfies `canonical = none → method = unmapped ∧
confidence = 0`; after `apply_mapping_overrides` a record with
`canonical = none` either kept that shape or is an explicit none/ignore
override, with method `override` and confidence 1. -/
theorem mapping_none_invariant :
    ∀ headers truth learned use_llm llmResp overrides,
      (∀ s rec,
        (s, rec) ∈ (suggest_mapping headers truth learned use_llm llmResp).1 →
        rec.canonical = none → rec.method = "unmapped" ∧ rec.confidence = 0) ∧
      (∀ s rec,
        (s, rec) ∈ apply_mapping_overrides
          (suggest_mapping headers truth learned use_llm llmResp).1 overrides →
        rec.canonical = none →
          (rec.method = "unmapped" ∧ rec.confidence = 0) ∨
          (rec.method = "override" ∧ rec.confidence = 1)) := by
  intro headers truth learned use_llm llmResp overrides
  refine ⟨fun s rec h => suggest_mapping_recOk _ _ _ _ _ s rec h, ?_⟩
  intro s rec hmem hnone
  obtain ⟨q, hq, hqe⟩ := List.mem_map.mp hmem
  have hrec := congrArg Prod.snd hqe
  dsimp only at hrec
  split at hrec
  · rename_i heq
    left
    have hqok := suggest_mapping_recOk headers truth learned use_llm llmResp
      q.1 q.2 (by simpa using hq)
    have : q.2.canonical = none := by
      rw [← heq]
      rw [← hrec] at hnone
      exact hnone
    have h2 := hqok this
    rw [← hrec]
    exact h2
  · right
    rw [← hrec]
    exact ⟨rfl, rfl⟩

/-- Witness for `mapping_none_invariant`. -/
theorem mapping_none_invariant_witness :
    (⟨none, 0, "unmapped"⟩ : MapRec).method = "unmapped" ∧
    (⟨none, 0, "unmapped"⟩ : MapRec).confidence = 0 :=
  (mapping_none_invariant ["zzz"] [("order_id", {})] [] true [] []).1
    "zzz" ⟨none, 0, "unmapped"⟩ (by decide) rfl

/-! ### Behaviour of the cascade at a single header -/

/-- When the compact key of `src` hits a canonical key, stage 1 fires. -/
theorem cascadeStep_hit {truth : Truth} {syn : List (String × String)}
    (acc : List (String × MapRec) × List String) {src : String}
    {p : String × Meta}
    (hf : List.find?
      (fun q => decide (normalizeHeader q.1 = normalizeHeader src)) truth =
      some p) :
    cascadeStep truth syn acc src =
      (upsert acc.1 src ⟨some p.1, 1, "canonical"⟩, acc.2) := by
  unfold cascadeStep
  dsimp only
  rw [hf]

/-- A cascade step for a different header neither changes the record of `h`
nor its membership in the unmatched list. -/
theorem cascadeStep_other {truth : Truth} {syn : List (String × String)}
    (acc : List (String × MapRec) × List String) {src h : String}
    (hne : src ≠ h) :
    lookupA (cascadeStep truth syn acc src).1 h = lookupA acc.1 h ∧
    (h ∈ (cascadeStep truth syn acc src).2 ↔ h ∈ acc.2) := by
  unfold cascadeStep
  dsimp only
  rcases hf1 : List.find?
      (fun p => decide (normalizeHeader p.1 = normalizeHeader src)) truth
    with _ | p1
  all_goals (try rw [hf1]); all_goals dsimp only
  case some => exact ⟨lookupA_upsert_ne _ _ _ _ hne, Iff.rfl⟩
  rcases hf2 : List.find?
      (fun p => (Option.map (fun f => f src) p.2.header_re).getD false) truth
    with _ | p2
  all_goals (try rw [hf2]); all_goals dsimp only
  case some => exact ⟨lookupA_upsert_ne _ _ _ _ hne, Iff.rfl⟩
  rcases hf3 : lookupA syn (normalizeHeader src) with _ | canon
  all_goals dsimp only
  case some => exact ⟨lookupA_upsert_ne _ _ _ _ hne, Iff.rfl⟩
  split
  · exact ⟨lookupA_upsert_ne _ _ _ _ hne, Iff.rfl⟩
  · refine ⟨rfl, ?_⟩
    simp [List.mem_append, hne, Ne.symm hne]

/-- A cascade step at `h` either records `h` or appends it to the unmatched
list. -/
theorem cascadeStep_self {truth : Truth} {syn : List (String × String)}
    (acc : List (String × MapRec) × List String) (h : String) :
    (lookupA (cascadeStep truth syn acc h).1 h).isSome ∨
    (cascadeStep truth syn acc h).2 = acc.2 ++ [h] := by
  unfold cascadeStep
  dsimp only
  rcases hf1 : List.find?
      (fun p => decide (normalizeHeader p.1 = normalizeHeader h)) truth
    with _ | p1
  all_goals (try rw [hf1]); all_goals dsimp only
  case some => exact Or.inl (by rw [lookupA_upsert_self]; rfl)
  rcases hf2 : List.find?
      (fun p => (Option.map (fun f => f h) p.2.header_re).getD false) truth
    with _ | p2
  all_goals (try rw [hf2]); all_goals dsimp only
  case some => exact Or.inl (by rw [lookupA_upsert_self]; rfl)
  rcases hf3 : lookupA syn (normalizeHeader h) with _ | canon
  all_goals dsimp only
  case some => exact Or.inl (by rw [lookupA_upsert_self]; rfl)
  split
  · exact Or.inl (by rw [lookupA_upsert_self]; rfl)
  · exact Or.inr rfl

/-- Every record a cascade step inserts has a `some` canonical field. -/
theorem cascadeStep_mem_some {truth : Truth} {syn : List (String × String)}
    {acc : List (String × MapRec) × List String} {src s : String} {rec : MapRec}
    (hmem : (s, rec) ∈ (cascadeStep truth syn acc src).1) :
    (∃ c, rec.canonical = some c) ∨ (s, rec) ∈ acc.1 := by
  unfold cascadeStep at hmem
  dsimp only at hmem
  rcases hf1 : List.find?
      (fun p => decide (normalizeHeader p.1 = normalizeHeader src)) truth
    with _ | p1
  all_goals rw [hf1] at hmem; dsimp only at hmem
  case some =>
    rcases mem_upsert hmem with h | h
    · exact Or.inl ⟨p1.1, (Prod.mk.injEq _ _ _ _ ▸ h).2 ▸ rfl⟩
    · exact Or.inr h
  rcases hf2 : List.find?
      (fun p => (Option.map (fun f => f src) p.2.header_re).getD false) truth
    with _ | p2
  all_goals rw [hf2] at hmem; dsimp only at hmem
  case some =>
    rcases mem_upsert hmem with h | h
    · exact Or.inl ⟨p2.1, (Prod.mk.injEq _ _ _ _ ▸ h).2 ▸ rfl⟩
    · exact Or.inr h
  rcases hf3 : lookupA syn (normalizeHeader src) with _ | canon
  all_goals rw [hf3] at hmem; dsimp only at hmem
  case some =>
    rcases mem_upsert hmem with h | h
    · exact Or.inl ⟨canon, (Prod.mk.injEq _ _ _ _ ▸ h).2 ▸ rfl⟩
    · exact Or.inr h
  split at hmem
  · rename_i hcond
    rcases mem_upsert hmem with h | h
    · rcases hh : (truth.foldl (fun h p => p.2.syn_lc.foldl (fun h s =>
          let score := normSim (normalizeHeader src) (normalizeHeader s)
          if h.2 < score then (some p.1, score) else h) h)
          ((none : Option String), (0 : ℚ))).1 with _ | c
      · rw [hh] at hcond
        exact absurd rfl hcond.1
      · exact Or.inl ⟨c, (Prod.mk.injEq _ _ _ _ ▸ h).2 ▸ hh⟩
    · exact Or.inr h
  · exact Or.inr hmem

/-- Canonical-some invariant over the whole cascade. -/
theorem cascade_fold_canon_some (headers : List String) (truth : Truth)
    (syn : List (String × String)) (acc : List (String × MapRec) × List String)
    (hacc : ∀ s rec, (s, rec) ∈ acc.1 → ∃ c, rec.canonical = some c) :
    ∀ s rec, (s, rec) ∈ (headers.foldl (cascadeStep truth syn) acc).1 →
      ∃ c, rec.canonical = some c := by
  induction headers generalizing acc with
  | nil => exact hacc
  | cons hd tl ih =>
    rw [List.foldl_cons]
    apply ih
    intro s rec hmem
    rcases cascadeStep_mem_some hmem with h | h
    · exact h
    · exact hacc s rec h

/-- Core cascade fold invariant at one header `h` with a stage-1 hit:
a `some` record at `h` is stable, the record (when present) is the canonical
one, `h` never enters the unmatched list, and processing `h` records it. -/
theorem cascade_fold_hit (truth : Truth) (syn : List (String × String))
    (h : String) (p : String × Meta)
    (hf : List.find?
      (fun q => decide (normalizeHeader q.1 = normalizeHeader h)) truth =
      some p) :
    ∀ (hs : List String) (acc : List (String × MapRec) × List String),
      (lookupA acc.1 h = some ⟨some p.1, 1, "canonical"⟩ ∨
        lookupA acc.1 h = none) → h ∉ acc.2 →
      (lookupA (hs.foldl (cascadeStep truth syn) acc).1 h =
          some ⟨some p.1, 1, "canonical"⟩ ∨
        lookupA (hs.foldl (cascadeStep truth syn) acc).1 h = none) ∧
      h ∉ (hs.foldl (cascadeStep truth syn) acc).2 ∧
      (lookupA acc.1 h = some ⟨some p.1, 1, "canonical"⟩ →
        lookupA (hs.foldl (cascadeStep truth syn) acc).1 h =
          some ⟨some p.1, 1, "canonical"⟩) ∧
      (h ∈ hs →
        lookupA (hs.foldl (cascadeStep truth syn) acc).1 h =
          some ⟨some p.1, 1, "canonical"⟩) := by
  intro hs
  induction hs with
  | nil =>
    intro acc hinv hnm
    exact ⟨hinv, hnm, fun hsome => hsome, fun hmem => absurd hmem (by simp)⟩
  | cons hd tl ih =>
    intro acc hinv hnm
    rw [List.foldl_cons]
    by_cases hdh : hd = h
    · subst hdh
      rw [cascadeStep_hit acc hf]
      have hself : lookupA (upsert acc.1 hd ⟨some p.1, 1, "canonical"⟩) hd =
          some ⟨some p.1, 1, "canonical"⟩ := lookupA_upsert_self _ _ _
      obtain ⟨a1, a2, a3, a4⟩ := ih (upsert acc.1 hd ⟨some p.1, 1, "canonical"⟩,
        acc.2) (Or.inl hself) hnm
      exact ⟨a1, a2, fun _ => a3 hself, fun _ => a3 hself⟩
    · obtain ⟨hlook, hunm⟩ := cascadeStep_other acc hdh
      obtain ⟨a1, a2, a3, a4⟩ := ih (cascadeStep truth syn acc hd)
        (by rw [hlook]; exact hinv) (fun hmem => hnm (hunm.mp hmem))
      refine ⟨a1, a2, fun hsome => a3 (by rw [hlook]; exact hsome), ?_⟩
      intro hmem
      rcases List.mem_cons.mp hmem with heq | hmem'
      · exact absurd heq.symm hdh
      · exact a4 hmem'

/-- A `some` record survives a cascade step. -/
theorem cascadeStep_isSome_mono {truth : Truth} {syn : List (String × String)}
    (acc : List (String × MapRec) × List String) (src h : String)
    (hs : (lookupA acc.1 h).isSome) :
    (lookupA (cascadeStep truth syn acc src).1 h).isSome := by
  unfold cascadeStep
  dsimp only
  rcases hf1 : List.find?
      (fun p => decide (normalizeHeader p.1 = normalizeHeader src)) truth
    with _ | p1
  all_goals (try rw [hf1]); all_goals dsimp only
  case some => exact lookupA_isSome_upsert _ _ _ _ hs
  rcases hf2 : List.find?
      (fun p => (Option.map (fun f => f src) p.2.header_re).getD false) truth
    with _ | p2
  all_goals (try rw [hf2]); all_goals dsimp only
  case some => exact lookupA_isSome_upsert _ _ _ _ hs
  rcases hf3 : lookupA syn (normalizeHeader src) with _ | canon
  all_goals dsimp only
  case some => exact lookupA_isSome_upsert _ _ _ _ hs
  split
  · exact lookupA_isSome_upsert _ _ _ _ hs
  · exact hs

/-- Unmatched entries are only ever appended by the cascade. -/
theorem cascadeStep_unmatched_mono {truth : Truth}
    {syn : List (String × String)}
    (acc : List (String × MapRec) × List String) (src h : String)
    (hmem : h ∈ acc.2) : h ∈ (cascadeStep truth syn acc src).2 := by
  unfold cascadeStep
  dsimp only
  rcases hf1 : List.find?
      (fun p => decide (normalizeHeader p.1 = normalizeHeader src)) truth
    with _ | p1
  all_goals (try rw [hf1]); all_goals dsimp only
  case some => exact hmem
  rcases hf2 : List.find?
      (fun p => (Option.map (fun f => f src) p.2.header_re).getD false) truth
    with _ | p2
  all_goals (try rw [hf2]); all_goals dsimp only
  case some => exact hmem
  rcases hf3 : lookupA syn (normalizeHeader src) with _ | canon
  all_goals dsimp only
  case some => exact hmem
  split
  · exact hmem
  · exact List.mem_append_left _ hmem

/-- A `some` record survives the whole cascade. -/
theorem cascade_fold_isSome_mono (truth : Truth) (syn : List (String × String)) :
    ∀ (hs : List String) (acc : List (String × MapRec) × List String)
      (h : String), (lookupA acc.1 h).isSome →
      (lookupA (hs.foldl (cascadeStep truth syn) acc).1 h).isSome := by
  intro hs
  induction hs with
  | nil => exact fun acc h hsome => hsome
  | cons hd tl ih =>
    intro acc h hsome
    rw [List.foldl_cons]
    exact ih _ h (cascadeStep_isSome_mono acc hd h hsome)

/-- Unmatched membership survives the whole cascade. -/
theorem cascade_fold_unmatched_mono (truth : Truth)
    (syn : List (String × String)) :
    ∀ (hs : List String) (acc : List (String × MapRec) × List String)
      (h : String), h ∈ acc.2 →
      h ∈ (hs.foldl (cascadeStep truth syn) acc).2 := by
  intro hs
  induction hs with
  | nil => exact fun acc h hmem => hmem
  | cons hd tl ih =>
    intro acc h hmem
    rw [List.foldl_cons]
    exact ih _ h (cascadeStep_unmatched_mono acc hd h hmem)

/-- Cascade coverage: every header of the input ends up recorded or
unmatched. -/
theorem cascade_fold_coverage (truth : Truth) (syn : List (String × String)) :
    ∀ (hs : List String) (acc : List (String × MapRec) × List String)
      (h : String), h ∈ hs →
      (lookupA (hs.foldl (cascadeStep truth syn) acc).1 h).isSome ∨
        h ∈ (hs.foldl (cascadeStep truth syn) acc).2 := by
  intro hs
  induction hs with
  | nil => intro acc h hmem; cases hmem
  | cons hd tl ih =>
    intro acc h hmem
    rw [List.foldl_cons]
    rcases List.mem_cons.mp hmem with heq | hmem'
    · subst heq
      rcases cascadeStep_self acc h with hsome | happ
      · exact Or.inl (cascade_fold_isSome_mono truth syn tl _ h hsome)
      · refine Or.inr (cascade_fold_unmatched_mono truth syn tl _ h ?_)
        rw [happ]
        exact List.mem_append_right _ (by simp)
    · exact ih _ h hmem'

/-! ### Behaviour of the LLM fallback loop -/

theorem lookupA_mem {α : Type} {l : List (String × α)} {k : String} {v : α}
    (h : lookupA l k = some v) : (k, v) ∈ l := by
  unfold lookupA at h
  rcases hf : l.find? (fun p => p.1 = k) with _ | p
  · rw [hf] at h; cases h
  · rw [hf] at h
    have hp := List.find?_some hf
    have hmem := List.mem_of_find?_eq_some hf
    have h1 : p.1 = k := by simpa using hp
    have h2 : p.2 = v := by simpa using h
    have : p = (k, v) := by
      cases p
      simp_all
    exact this ▸ hmem

theorem llmStep_lookup_ne {truth : Truth} {llmResp : List (String × String)}
    (r : List (String × MapRec)) {src h : String} (hne : src ≠ h) :
    lookupA (llmStep truth llmResp r src) h = lookupA r h := by
  unfold llmStep
  rcases lookupA llmResp src with _ | canon
  · exact lookupA_upsert_ne _ _ _ _ hne
  · dsimp only
    split
    · exact lookupA_upsert_ne _ _ _ _ hne
    · exact lookupA_upsert_ne _ _ _ _ hne

theorem llmStep_isSome_mono {truth : Truth} {llmResp : List (String × String)}
    (r : List (String × MapRec)) (src h : String)
    (hs : (lookupA r h).isSome) :
    (lookupA (llmStep truth llmResp r src) h).isSome := by
  unfold llmStep
  rcases lookupA llmResp src with _ | canon
  · exact lookupA_isSome_upsert _ _ _ _ hs
  · dsimp only
    split
    · exact lookupA_isSome_upsert _ _ _ _ hs
    · exact lookupA_isSome_upsert _ _ _ _ hs

theorem llmStep_self {truth : Truth} {llmResp : List (String × String)}
    (r : List (String × MapRec)) (src : String) :
    (lookupA (llmStep truth llmResp r src) src).isSome := by
  unfold llmStep
  rcases lookupA llmResp src with _ | canon
  · rw [lookupA_upsert_self]; rfl
  · dsimp only
    split
    · rw [lookupA_upsert_self]; rfl
    · rw [lookupA_upsert_self]; rfl

theorem llm_fold_lookup_nmem (truth : Truth) (llmResp : List (String × String)) :
    ∀ (srcs : List String) (r : List (String × MapRec)) (h : String),
      h ∉ srcs →
      lookupA (srcs.foldl (llmStep truth llmResp) r) h = lookupA r h := by
  intro srcs
  induction srcs with
  | nil => exact fun r h _ => rfl
  | cons hd tl ih =>
    intro r h hnm
    rw [List.foldl_cons]
    have hne : hd ≠ h := fun he => hnm (he ▸ List.mem_cons_self hd tl)
    rw [ih _ h (fun hm => hnm (List.mem_cons_of_mem hd hm))]
    exact llmStep_lookup_ne r hne

theorem llm_fold_isSome_mono (truth : Truth) (llmResp : List (String × String)) :
    ∀ (srcs : List String) (r : List (String × MapRec)) (h : String),
      (lookupA r h).isSome →
      (lookupA (srcs.foldl (llmStep truth llmResp) r) h).isSome := by
  intro srcs
  induction srcs with
  | nil => exact fun r h hs => hs
  | cons hd tl ih =>
    intro r h hs
    rw [List.foldl_cons]
    exact ih _ h (llmStep_isSome_mono r hd h hs)

theorem llm_fold_covers (truth : Truth) (llmResp : List (String × String)) :
    ∀ (srcs : List String) (r : List (String × MapRec)) (h : String),
      h ∈ srcs →
      (lookupA (srcs.foldl (llmStep truth llmResp) r) h).isSome := by
  intro srcs
  induction srcs with
  | nil => intro r h hm; cases hm
  | cons hd tl ih =>
    intro r h hm
    rw [List.foldl_cons]
    rcases List.mem_cons.mp hm with heq | hm'
    · subst heq
      exact llm_fold_isSome_mono truth llmResp tl _ h (llmStep_self r h)
    · exact ih _ h hm'

/-! ### C9: exact canonical key matches -/

/-- C9: whenever the compact key of a header equals the compact key of some
canonical field name, `suggest_mapping` records that header with confidence
exactly 1.00 and method `canonical` — whatever the synonyms, patterns, learned
synonyms and fallback configuration are. -/
theorem canonical_key_match_rule :
    ∀ headers truth learned use_llm llmResp h,
      h ∈ headers →
      (∃ k meta, (k, meta) ∈ truth ∧ normalizeHeader k = normalizeHeader h) →
      ∃ k', normalizeHeader k' = normalizeHeader h ∧
        lookupA (suggest_mapping headers truth learned use_llm llmResp).1 h =
          some ⟨some k', 1, "canonical"⟩ := by
  intro headers truth learned use_llm llmResp h hmem hex
  obtain ⟨k, meta, hkm, hnorm⟩ := hex
  have hsome : (List.find?
      (fun q => decide (normalizeHeader q.1 = normalizeHeader h)) truth).isSome := by
    rw [List.find?_isSome]
    exact ⟨(k, meta), hkm, by simpa using hnorm⟩
  obtain ⟨p, hp⟩ := Option.isSome_iff_exists.mp hsome
  have hpprop : normalizeHeader p.1 = normalizeHeader h := by
    have := List.find?_some hp
    simpa using this
  refine ⟨p.1, hpprop, ?_⟩
  rw [suggest_mapping_eq]
  obtain ⟨_, hnm, _, hproc⟩ := cascade_fold_hit truth
    (buildSynToCanon truth learned) h p hp headers ([], []) (Or.inr rfl)
    (by simp)
  have hlook := hproc hmem
  dsimp only
  by_cases hc : (use_llm = true) ∧
      (headers.foldl (cascadeStep truth (buildSynToCanon truth learned))
        ([], [])).2 ≠ []
  · rw [if_pos hc]
    dsimp only
    rw [llm_fold_lookup_nmem truth llmResp _ _ h hnm]
    exact hlook
  · rw [if_neg hc]
    exact hlook

/-- Witness for `canonical_key_match_rule`. -/
theorem canonical_key_match_rule_witness :
    ∃ k', normalizeHeader k' = normalizeHeader "Order Id" ∧
      lookupA (suggest_mapping ["Order Id"]
        [("order_id", ⟨[], none, ""⟩)] [] false []).1 "Order Id" =
        some ⟨some k', 1, "canonical"⟩ :=
  canonical_key_match_rule ["Order Id"] [("order_id", ⟨[], none, ""⟩)] [] false
    [] "Order Id" (by decide)
    ⟨"order_id", ⟨[], none, ""⟩, List.mem_singleton.mpr rfl, by decide⟩

/-! ### C4: coverage of `suggest_mapping` -/

/-- C4 counterexample: with the external fallback disabled, an unmatched
header receives NO `HeaderMapping` record at all — it only appears in the
unmatched list. -/
theorem suggest_mapping_missing_record :
    (suggest_mapping ["mystery col"]
      [("order_id", ⟨["order number"], none, ""⟩)] [] false []).1 = [] ∧
    (suggest_mapping ["mystery col"]
      [("order_id", ⟨["order number"], none, ""⟩)] [] false []).2 =
      ["mystery col"] := by decide

/-- C4 (amended): every source header is either recorded or appears verbatim
in the unmatched list; when the external fallback runs, every header is
recorded; and a header whose record is missing or resolved to no canonical
field appears verbatim in the unmatched list. -/
theorem suggest_mapping_coverage :
    ∀ headers truth learned use_llm llmResp,
      (∀ h, h ∈ headers →
        (lookupA (suggest_mapping headers truth learned use_llm llmResp).1 h).isSome ∨
          h ∈ (suggest_mapping headers truth learned use_llm llmResp).2) ∧
      (use_llm = true → ∀ h, h ∈ headers →
        (lookupA (suggest_mapping headers truth learned use_llm llmResp).1 h).isSome) ∧
      (∀ h rec, h ∈ headers →
        lookupA (suggest_mapping headers truth learned use_llm llmResp).1 h =
          some rec →
        rec.canonical = none →
        h ∈ (suggest_mapping headers truth learned use_llm llmResp).2) ∧
      (∀ h, h ∈ headers →
        lookupA (suggest_mapping headers truth learned use_llm llmResp).1 h =
          none →
        h ∈ (suggest_mapping headers truth learned use_llm llmResp).2) := by
  intro headers truth learned use_llm llmResp
  rw [suggest_mapping_eq]
  dsimp only
  by_cases hc : (use_llm = true) ∧
      (headers.foldl (cascadeStep truth (buildSynToCanon truth learned))
        ([], [])).2 ≠ []
  · rw [if_pos hc]
    dsimp only
    set st := headers.foldl (cascadeStep truth (buildSynToCanon truth learned))
      ([], []) with hst
    have hcov : ∀ h, h ∈ headers →
        (lookupA (st.2.foldl (llmStep truth llmResp) st.1) h).isSome := by
      intro h hm
      rcases cascade_fold_coverage truth (buildSynToCanon truth learned)
        headers ([], []) h hm with hs | hu
      · exact llm_fold_isSome_mono truth llmResp st.2 st.1 h hs
      · exact llm_fold_covers truth llmResp st.2 st.1 h hu
    refine ⟨fun h hm => Or.inl (hcov h hm), fun _ h hm => hcov h hm, ?_, ?_⟩
    · intro h rec hm hlook hnone
      have hmem2 : h ∈ st.2 := by
        by_contra hnm
        rw [llm_fold_lookup_nmem truth llmResp st.2 st.1 h hnm] at hlook
        obtain ⟨c, hcc⟩ := cascade_fold_canon_some headers truth
          (buildSynToCanon truth learned) ([], []) (by intro _ _ hx; cases hx)
          h rec (lookupA_mem hlook)
        rw [hnone] at hcc
        cases hcc
      refine List.mem_filter.mpr ⟨hmem2, ?_⟩
      rw [hlook]
      dsimp only
      rw [hnone]
      rfl
    · intro h hm hlook
      have := hcov h hm
      rw [hlook] at this
      cases this
  · rw [if_neg hc]
    have hcov := cascade_fold_coverage truth (buildSynToCanon truth learned)
      headers ([], [])
    refine ⟨fun h hm => hcov h hm, ?_, ?_, ?_⟩
    · intro hllm h hm
      have hemp : (headers.foldl
          (cascadeStep truth (buildSynToCanon truth learned)) ([], [])).2 = [] := by
        by_contra hne
        exact hc ⟨hllm, hne⟩
      rcases hcov h hm with hs | hu
      · exact hs
      · rw [hemp] at hu
        cases hu
    · intro h rec hm hlook hnone
      obtain ⟨c, hcc⟩ := cascade_fold_canon_some headers truth
        (buildSynToCanon truth learned) ([], []) (by intro _ _ hx; cases hx)
        h rec (lookupA_mem hlook)
      rw [hnone] at hcc
      cases hcc
    · intro h hm hlook
      rcases hcov h hm with hs | hu
      · rw [hlook] at hs
        cases hs
      · exact hu

/-- Witness for `suggest_mapping_coverage`. -/
theorem suggest_mapping_coverage_witness :
    (lookupA (suggest_mapping ["mystery column"]
      [("order_id", ⟨["order number"], none, ""⟩)] [] false []).1
      "mystery column").isSome ∨
    "mystery column" ∈ (suggest_mapping ["mystery column"]
      [("order_id", ⟨["order number"], none, ""⟩)] [] false []).2 :=
  (suggest_mapping_coverage ["mystery column"]
    [("order_id", ⟨["order number"], none, ""⟩)] [] false []).1
    "mystery column" (by decide)

/-! ### C6: the phone validator -/

/-- C6 counterexample: a non-empty non-string phone value with fewer than 7
digits is accepted unchanged, and the reason string for an `@`-carrying value
is "Email found in phone field", not "email in phone field". -/
theorem phone_rule_counterexample :
    validate_and_clean "phone" (Val.vint 123) = ⟨Val.vint 123, true, none, none⟩ ∧
    (digitsOnlyL (toString (123 : ℤ)).data).length < 7 ∧
    (validate_and_clean "phone" (Val.vstr "a@b")).reason =
      some "Email found in phone field" ∧
    ("Email found in phone field" : String) ≠ "email in phone field" := by decide

/-- C6 (amended): for every string value in the phone field the validator
strips characters outside `[0-9+]`; the value is invalid with reason
"Email found in phone field" if it contains `@`, otherwise valid iff at least
7 digits remain after stripping; non-string values pass through unchanged as
valid. -/
theorem phone_validation_rule :
    (∀ s : String,
      validate_and_clean "phone" (Val.vstr s) =
        (if (pyStrip s).data.contains '@' then
          ⟨Val.vnone, false, some "Email found in phone field", none⟩
        else if 7 ≤ (digitsOnlyL (phoneCleanL (pyStrip s).data)).length then
          ⟨Val.vstr ⟨phoneCleanL (pyStrip s).data⟩, true, none, none⟩
        else ⟨Val.vnone, false, some "Invalid phone", none⟩)) ∧
    (∀ n, validate_and_clean "phone" (Val.vint n) = ⟨Val.vint n, true, none, none⟩) ∧
    (∀ q, validate_and_clean "phone" (Val.vnum q) = ⟨Val.vnum q, true, none, none⟩) ∧
    (validate_and_clean "phone" Val.vnone = ⟨Val.vnone, true, none, none⟩) := by
  refine ⟨?_, ?_, ?_, by decide⟩
  · intro s
    simp [validate_and_clean, vStrip]
  · intro n
    simp [validate_and_clean, vStrip]
  · intro q
    simp [validate_and_clean, vStrip]

/-! ### Structure of the reshaped table -/

theorem lookupCol_eq (df : Df) (c : String) : lookupCol df c = lookupA df c := rfl

theorem lookupA_append_some {α : Type} {l1 : List (String × α)}
    (l2 : List (String × α)) {k : String} {v : α}
    (h : lookupA l1 k = some v) : lookupA (l1 ++ l2) k = some v := by
  unfold lookupA at h ⊢
  rw [List.find?_append]
  rcases hf : l1.find? (fun p => p.1 = k) with _ | p
  · rw [hf] at h; cases h
  · rw [hf] at h
    rw [hf]
    simpa using h

theorem lookupA_append_none {α : Type} {l1 : List (String × α)}
    (l2 : List (String × α)) {k : String}
    (h : lookupA l1 k = none) : lookupA (l1 ++ l2) k = lookupA l2 k := by
  unfold lookupA at h ⊢
  rw [List.find?_append]
  rcases hf : l1.find? (fun p => p.1 = k) with _ | p
  · rw [hf]
    simp
  · rw [hf] at h
    cases h

theorem lookupA_map_self {α : Type} (f : String → α) :
    ∀ (l : List String) (c : String), c ∈ l →
      lookupA (l.map (fun x => (x, f x))) c = some (f c) := by
  intro l
  induction l with
  | nil => intro c hc; cases hc
  | cons d t ih =>
    intro c hc
    by_cases hd : d = c
    · subst hd
      simp [lookupA, List.find?]
    · rcases List.mem_cons.mp hc with heq | hmem
      · exact absurd heq.symm hd
      · unfold lookupA
        simp only [List.map_cons, List.find?_cons, hd, decide_False]
        exact ih c hmem

/-- Every canonical column is present after step 2 adds the missing ones. -/
theorem mappedDf2_isSome (raw : Df) (mapping : List (String × MapRec))
    (truth : Truth) (c : String) (hc : c ∈ truth.map (fun p => p.1)) :
    (lookupCol (mappedDf2Of raw mapping truth) c).isSome := by
  unfold mappedDf2Of
  rw [lookupCol_eq]
  rcases hm : lookupCol (mappedDfOf raw mapping) c with _ | v
  · have hcf : c ∈ (truth.map (fun p => p.1)).filter
        (fun c => lookupCol (mappedDfOf raw mapping) c = none) :=
      List.mem_filter.mpr ⟨hc, by simp [hm]⟩
    rw [lookupA_append_none _ (by rw [← lookupCol_eq]; exact hm)]
    rw [lookupA_map_self _ _ _ hcf]
    rfl
  · rw [lookupA_append_some _ (by rw [← lookupCol_eq]; exact hm)]
    rfl

/-- Step 2 keeps every canonical column: `cols_in_order` is the whole
canonical order. -/
theorem colsInOrder_eq (raw : Df) (mapping : List (String × MapRec))
    (truth : Truth) :
    colsInOrderOf raw mapping truth = truth.map (fun p => p.1) := by
  unfold colsInOrderOf
  rw [List.filter_eq_self]
  intro c hc
  simpa using mappedDf2_isSome raw mapping truth c hc

/-- The validated table keeps exactly the canonical columns. -/
theorem proposed_map_fst (raw : Df) (mapping : List (String × MapRec))
    (truth : Truth) (use_llm : Bool)
    (cleanResp : String → String → String → Option String) :
    ((perColOf raw mapping truth use_llm cleanResp).map
      (fun p => p.1)).map (fun p => p.1) = truth.map (fun p => p.1) := by
  unfold perColOf proposedColsOf
  rw [List.map_map, List.map_map, List.map_map]
  rw [← colsInOrder_eq raw mapping truth]
  conv_rhs => rw [← List.map_id (colsInOrderOf raw mapping truth)]
  exact List.map_congr_left (fun c _ => rfl)

/-- Step 4's `missing` list is always empty: step 2 already added every
absent canonical column, so the "Missing column (unmapped)" issue can never
be emitted. -/
theorem missing_nil (raw : Df) (mapping : List (String × MapRec))
    (truth : Truth) (use_llm : Bool)
    (cleanResp : String → String → String → Option String) :
    (truth.map (fun p => p.1)).filter
      (fun c => lookupCol ((perColOf raw mapping truth use_llm cleanResp).map
        (fun p => p.1)) c = none) = [] := by
  rw [List.filter_eq_nil_iff]
  intro c hc
  simp only [decide_eq_true_eq, lookupCol_eq]
  rw [lookupA_none_iff]
  simp only [not_not]
  rw [proposed_map_fst raw mapping truth use_llm cleanResp]
  exact hc

/-- All issues of one cell of step 3 carry that cell's row index. -/
theorem processCell_row_index (raw : Df) (truth : Truth)
    (helpers : List String) (use_llm : Bool)
    (cleanResp : String → String → String → Option String)
    (col : String) (idx : ℕ) (val : Val) :
    ∀ i ∈ (processCell raw truth helpers use_llm cleanResp col idx val).2,
      i.row_index = some idx := by
  intro i hi
  unfold processCell at hi
  dsimp only at hi
  split at hi
  · split at hi
    · rw [List.mem_singleton] at hi
      subst hi; rfl
    · split at hi
      · rw [List.mem_singleton] at hi
        subst hi; rfl
      · rw [List.mem_singleton] at hi
        subst hi; rfl
  · split at hi
    · cases hi
    · rw [List.mem_singleton] at hi
      subst hi; rfl

/-- All issues of one column of step 3 carry a row index. -/
theorem processColumn_row_index (raw : Df) (truth : Truth)
    (helpers : List String) (use_llm : Bool)
    (cleanResp : String → String → String → Option String)
    (col : String) (vals : List Val) :
    ∀ i ∈ (processColumn raw truth helpers use_llm cleanResp col vals).2,
      ∃ idx, i.row_index = some idx := by
  intro i hi
  unfold processColumn at hi
  dsimp only at hi
  obtain ⟨iss, hiss, hmem⟩ := List.mem_flatten.mp hi
  obtain ⟨cell, hcell, hc⟩ := List.mem_map.mp hiss
  obtain ⟨idx, _, hcell2⟩ := List.mem_map.mp hcell
  subst hc
  subst hcell2
  exact ⟨idx, processCell_row_index raw truth helpers use_llm cleanResp col idx
    _ i hmem⟩

/-! ### C1: the "Missing column (unmapped)" summary is dead code -/

/-- Column-level issues can only be "Extra column" or "New header proposal";
any other issue carries a row index. -/
def columnLevelOk (i : Issue) : Bool :=
  i.row_index.isSome || i.reason = "Extra column" ||
    i.reason = "New header proposal"

/-- C1: the claimed behaviour does not happen.  Concretely, with canonical
fields `customer_id` (mapped) and `order_id` (unmapped), the cleaned table
does contain `order_id` as an all-missing column, but the issue list contains
NO "Missing column (unmapped)" issue — the claim requires exactly one.  In
general every issue of `build_proposed_clean_df` either carries a row index or
is an "Extra column"/"New header proposal" summary: step 2 adds every absent
canonical column before step 4 computes the missing list, so that list is
always empty and the issue the source intends to emit there is unreachable. -/
theorem missing_column_issue_dead :
    ((build_proposed_clean_df
        [("Cust", [Val.vstr "cust-1"]), ("Notes", [Val.vstr "hi"])]
        [("Cust", ⟨some "customer_id", 1, "canonical"⟩)]
        [("customer_id", ⟨[], none, ""⟩), ("order_id", ⟨[], none, ""⟩)]
        false [] (fun _ _ _ => none)).2.countP
      (fun i => i.reason = "Missing column (unmapped)") = 0) ∧
    (lookupCol (build_proposed_clean_df
        [("Cust", [Val.vstr "cust-1"]), ("Notes", [Val.vstr "hi"])]
        [("Cust", ⟨some "customer_id", 1, "canonical"⟩)]
        [("customer_id", ⟨[], none, ""⟩), ("order_id", ⟨[], none, ""⟩)]
        false [] (fun _ _ _ => none)).1 "order_id" = some [Val.vnone]) ∧
    (∀ raw mapping truth use_llm proposeResp cleanResp,
      ((build_proposed_clean_df raw mapping truth use_llm proposeResp
        cleanResp).2.all columnLevelOk) = true) := by
  refine ⟨by decide, by decide, ?_⟩
  intro raw mapping truth use_llm proposeResp cleanResp
  unfold build_proposed_clean_df
  dsimp only
  rw [missing_nil raw mapping truth use_llm cleanResp]
  rw [List.all_eq_true]
  intro i hi
  rw [List.map_nil] at hi
  rcases List.mem_append.mp hi with hi1 | hiP
  · rcases List.mem_append.mp hi1 with hi2 | hi5
    · rcases List.mem_append.mp hi2 with hi3 | hi4
      · obtain ⟨iss, hiss, hmem⟩ := List.mem_flatten.mp hi3
        obtain ⟨pc, hpcm, hpc⟩ := List.mem_map.mp hiss
        obtain ⟨q, _, hq⟩ := List.mem_map.mp hpcm
        rw [← hpc] at hmem
        rw [← hq] at hmem
        obtain ⟨idx, hidx⟩ := processColumn_row_index raw truth _ use_llm
          cleanResp q.1 q.2 i hmem
        unfold columnLevelOk
        rw [hidx]
        rfl
      · cases hi4
    · obtain ⟨c, _, hc⟩ := List.mem_map.mp hi5
      rw [← hc]
      rfl
  · obtain ⟨p, _, hp⟩ := List.mem_map.mp hiP
    rw [← hp]
    rfl

/-! ### Character-class lemmas -/

theorem isPySpace_elim {c : Char} (h : isPySpace c = true) :
    c = ' ' ∨ c = '\t' ∨ c = '\n' ∨ c = '\r' ∨ c = '\x0b' ∨ c = '\x0c' := by
  unfold isPySpace at h
  simp only [Bool.or_eq_true, decide_eq_true_eq] at h
  tauto

/-- A character class that rejects every Python whitespace character keeps
its members out of `isPySpace`. -/
theorem isPySpace_false_of_class {P : Char → Bool} {c : Char} (hc : P c = true)
    (h1 : P ' ' = false) (h2 : P '\t' = false) (h3 : P '\n' = false)
    (h4 : P '\r' = false) (h5 : P '\x0b' = false) (h6 : P '\x0c' = false) :
    isPySpace c = false := by
  rcases hs : isPySpace c with _ | _
  · rfl
  · rcases isPySpace_elim hs with h | h | h | h | h | h <;> subst h <;> simp_all

theorem ne_space_of_class {P : Char → Bool} {c : Char} (hc : P c = true)
    (h : P ' ' = false) : ¬ (c = ' ') := by
  intro he
  subst he
  rw [h] at hc
  cases hc

theorem isUpper_toNat {c : Char} (h : c.isUpper = true) :
    65 ≤ c.toNat ∧ c.toNat ≤ 90 := by
  unfold Char.isUpper at h
  simp only [Bool.and_eq_true, decide_eq_true_eq] at h
  unfold Char.toNat
  exact ⟨by exact_mod_cast h.1, by exact_mod_cast h.2⟩

theorem toNat_isUpper {c : Char} (h1 : 65 ≤ c.toNat) (h2 : c.toNat ≤ 90) :
    c.isUpper = true := by
  unfold Char.toNat at h1 h2
  unfold Char.isUpper
  simp only [Bool.and_eq_true, decide_eq_true_eq]
  exact ⟨by exact_mod_cast h1, by exact_mod_cast h2⟩

theorem isLower_toNat {c : Char} (h : c.isLower = true) :
    97 ≤ c.toNat ∧ c.toNat ≤ 122 := by
  unfold Char.isLower at h
  simp only [Bool.and_eq_true, decide_eq_true_eq] at h
  unfold Char.toNat
  exact ⟨by exact_mod_cast h.1, by exact_mod_cast h.2⟩

theorem toNat_isLower {c : Char} (h1 : 97 ≤ c.toNat) (h2 : c.toNat ≤ 122) :
    c.isLower = true := by
  unfold Char.toNat at h1 h2
  unfold Char.isLower
  simp only [Bool.and_eq_true, decide_eq_true_eq]
  exact ⟨by exact_mod_cast h1, by exact_mod_cast h2⟩

theorem isDigit_toNat {c : Char} (h : c.isDigit = true) :
    48 ≤ c.toNat ∧ c.toNat ≤ 57 := by
  unfold Char.isDigit at h
  simp only [Bool.and_eq_true, decide_eq_true_eq] at h
  unfold Char.toNat
  exact ⟨by exact_mod_cast h.1, by exact_mod_cast h.2⟩

theorem toUpper_id_of_not_lower {c : Char} (h : c.isLower = false) :
    c.toUpper = c := by
  unfold Char.toUpper
  dsimp only
  rw [if_neg]
  intro hcon
  rw [toNat_isLower hcon.1 hcon.2] at h
  cases h

theorem upper_not_lower {c : Char} (h : c.isUpper = true) :
    c.isLower = false := by
  rcases hl : c.isLower with _ | _
  · rfl
  · obtain ⟨a1, a2⟩ := isUpper_toNat h
    obtain ⟨b1, b2⟩ := isLower_toNat hl
    omega

theorem digit_not_lower {c : Char} (h : c.isDigit = true) :
    c.isLower = false := by
  rcases hl : c.isLower with _ | _
  · rfl
  · obtain ⟨a1, a2⟩ := isDigit_toNat h
    obtain ⟨b1, b2⟩ := isLower_toNat hl
    omega

theorem upper_toUpper_id {c : Char} (h : c.isUpper = true) : c.toUpper = c :=
  toUpper_id_of_not_lower (upper_not_lower h)

theorem digit_toUpper_id {c : Char} (h : c.isDigit = true) : c.toUpper = c :=
  toUpper_id_of_not_lower (digit_not_lower h)

theorem char_ofNat_toNat {m : ℕ} (h : m < 55296) : (Char.ofNat m).toNat = m := by
  unfold Char.ofNat
  rw [dif_pos (Or.inl h : m.isValidChar)]
  rfl

theorem alpha_toUpper_isUpper {c : Char} (h : c.isAlpha = true) :
    (c.toUpper).isUpper = true := by
  unfold Char.isAlpha at h
  rcases (Bool.or_eq_true _ _).mp h with hu | hl
  · rw [upper_toUpper_id hu]
    exact hu
  · obtain ⟨b1, b2⟩ := isLower_toNat hl
    unfold Char.toUpper
    dsimp only
    rw [if_pos ⟨b1, b2⟩]
    have ht : (Char.ofNat (c.toNat - 32)).toNat = c.toNat - 32 :=
      char_ofNat_toNat (by omega)
    exact toNat_isUpper (by omega) (by omega)

theorem upper_toLower_toUpper {c : Char} (h : c.isUpper = true) :
    (c.toLower).toUpper = c := by
  obtain ⟨b1, b2⟩ := isUpper_toNat h
  unfold Char.toLower
  dsimp only
  rw [if_pos ⟨b1, b2⟩]
  have ht : (Char.ofNat (c.toNat + 32)).toNat = c.toNat + 32 :=
    char_ofNat_toNat (by omega)
  unfold Char.toUpper
  dsimp only
  rw [ht, if_pos ⟨by omega, by omega⟩]
  have he : c.toNat + 32 - 32 = c.toNat := by omega
  rw [he, Char.ofNat_toNat]

theorem upper_isAlpha {c : Char} (h : c.isUpper = true) : c.isAlpha = true := by
  unfold Char.isAlpha
  rw [h]
  rfl

theorem digit_not_space {c : Char} (h : c.isDigit = true) : isPySpace c = false :=
  isPySpace_false_of_class h (by decide) (by decide) (by decide) (by decide)
    (by decide) (by decide)

theorem upper_not_space {c : Char} (h : c.isUpper = true) : isPySpace c = false :=
  isPySpace_false_of_class h (by decide) (by decide) (by decide) (by decide)
    (by decide) (by decide)

/-! ### String fixpoint lemmas -/

theorem string_mk_data (s : String) : (⟨s.data⟩ : String) = s := rfl

theorem pyUpper_fix {s : String} (h : ∀ c ∈ s.data, c.isLower = false) :
    pyUpper s = s := by
  unfold pyUpper
  have hd : s.data.map Char.toUpper = s.data := by
    conv_rhs => rw [← List.map_id s.data]
    exact List.map_congr_left (fun c hc => toUpper_id_of_not_lower (h c hc))
  rw [hd]

theorem removeSpaces_fix {s : String} (h : ∀ c ∈ s.data, ¬ (c = ' ')) :
    removeSpaces s = s := by
  unfold removeSpaces removeSpacesL
  have hd : s.data.filter (fun c => c ≠ ' ') = s.data := by
    rw [List.filter_eq_self]
    intro c hc
    simpa using h c hc
  rw [hd]

theorem toNat_isDigit {c : Char} (h1 : 48 ≤ c.toNat) (h2 : c.toNat ≤ 57) :
    c.isDigit = true := by
  unfold Char.toNat at h1 h2
  unfold Char.isDigit
  simp only [Bool.and_eq_true, decide_eq_true_eq]
  exact ⟨by exact_mod_cast h1, by exact_mod_cast h2⟩

theorem ne_space_of_not_space {c : Char} (h : isPySpace c = false) :
    ¬ (c = ' ') := by
  intro he
  subst he
  exact absurd h (by decide)

theorem digit_ne_at {c : Char} (h : c.isDigit = true) : ¬ (c = '@') := by
  intro he
  subst he
  exact absurd h (by decide)

/-! ### Decimal rendering of naturals -/

theorem natDigits_digit : ∀ n, ∀ c ∈ natDigits n, c.isDigit = true := by
  intro n
  induction n using Nat.strong_induction_on with
  | _ n ih =>
    match n with
    | 0 =>
      intro c hc
      simp [natDigits] at hc
    | m + 1 =>
      intro c hc
      rw [natDigits] at hc
      rcases List.mem_append.mp hc with h1 | h1
      · exact ih ((m + 1) / 10) (Nat.div_lt_self (Nat.succ_pos m) (by norm_num)) c h1
      · have hc' : c = Char.ofNat (48 + (m + 1) % 10) := by simpa using h1
        subst hc'
        have hm : (m + 1) % 10 < 10 := Nat.mod_lt _ (by norm_num)
        have ht : (Char.ofNat (48 + (m + 1) % 10)).toNat = 48 + (m + 1) % 10 :=
          char_ofNat_toNat (by omega)
        exact toNat_isDigit (by omega) (by omega)

theorem natDigits_len_le : ∀ (k n : ℕ), n < 10 ^ k → (natDigits n).length ≤ k := by
  intro k
  induction k with
  | zero =>
    intro n h
    have hn : n = 0 := by omega
    subst hn
    simp [natDigits]
  | succ k ih =>
    intro n h
    match n with
    | 0 => simp [natDigits]
    | m + 1 =>
      rw [natDigits, List.length_append, List.length_singleton]
      have hd : (m + 1) / 10 < 10 ^ k := by
        rw [Nat.div_lt_iff_lt_mul (by norm_num)]
        calc m + 1 < 10 ^ (k + 1) := h
        _ = 10 ^ k * 10 := by ring
      have := ih _ hd
      omega

theorem natStr_digit {n : ℕ} : ∀ c ∈ (natStr n).data, c.isDigit = true := by
  unfold natStr
  split
  · intro c hc
    simp at hc
    subst hc
    decide
  · exact natDigits_digit n

theorem natStr_len_le {n k : ℕ} (h : n < 10 ^ k) (hk : 0 < k) :
    (natStr n).length ≤ k := by
  unfold natStr
  split
  · simpa [String.length] using hk
  · exact natDigits_len_le k n h

theorem pad6_spec {n : ℤ} (h0 : 0 ≤ n) (h1 : n ≤ 999999) :
    (pad6 n).data.length = 6 ∧ ∀ c ∈ (pad6 n).data, c.isDigit = true := by
  unfold pad6
  have hlt : n.toNat < 10 ^ 6 := by omega
  have hlen : (natStr n.toNat).length ≤ 6 := natStr_len_le hlt (by norm_num)
  have hdata : ((⟨List.replicate (6 - (natStr n.toNat).length) '0'⟩ : String) ++
      natStr n.toNat).data =
      List.replicate (6 - (natStr n.toNat).length) '0' ++ (natStr n.toNat).data := by
    simp
  refine ⟨?_, ?_⟩
  · rw [hdata, List.length_append, List.length_replicate]
    have : (natStr n.toNat).length = (natStr n.toNat).data.length := rfl
    omega
  · intro c hc
    rw [hdata] at hc
    rcases List.mem_append.mp hc with h | h
    · have : c = '0' := List.eq_of_mem_replicate h
      subst this
      decide
    · exact natStr_digit c h

theorem pin6_pad6 {n : ℤ} (h0 : 0 ≤ n) (h1 : n ≤ 999999) :
    pin6Match (pad6 n) = true := by
  obtain ⟨hl, hd⟩ := pad6_spec h0 h1
  unfold pin6Match
  simp only [Bool.and_eq_true, decide_eq_true_eq, List.all_eq_true]
  exact ⟨hl, fun c hc => hd c hc⟩

/-! ### Round-half-even lemmas -/

theorem ratFloor_eq (q : ℚ) : q.floor = ⌊q⌋ := by
  rw [Rat.floor_def', Rat.floor_def]

theorem rhe_mem (q : ℚ) :
    roundHalfEven q = q.floor ∨ roundHalfEven q = q.floor + 1 := by
  unfold roundHalfEven
  dsimp only
  split
  · left; rfl
  · split
    · right; rfl
    · split
      · left; rfl
      · right; rfl

theorem rhe_intCast (n : ℤ) : roundHalfEven (n : ℚ) = n := by
  unfold roundHalfEven
  dsimp only
  rw [Rat.floor_def', Rat.num_intCast, Rat.den_intCast]
  norm_num

theorem rhe_ge {q : ℚ} {a : ℤ} (h : (a : ℚ) ≤ q) : a ≤ roundHalfEven q := by
  have hf : a ≤ q.floor := by
    rw [ratFloor_eq]
    exact Int.le_floor.mpr h
  rcases rhe_mem q with h1 | h1 <;> omega

theorem rhe_le {q : ℚ} {b : ℤ} (h : q ≤ (b : ℚ)) : roundHalfEven q ≤ b := by
  rcases eq_or_lt_of_le h with he | hlt
  · rw [he, rhe_intCast]
  · have hf : q.floor < b := by
      rw [ratFloor_eq]
      exact Int.floor_lt.mpr hlt
    rcases rhe_mem q with h1 | h1 <;> omega

theorem round4_bounds {q : ℚ} (h0 : 0 ≤ q) (h1 : q ≤ 1) :
    0 ≤ round4 q ∧ round4 q ≤ 1 := by
  unfold round4
  have hq : Rat.divInt (q.num * 10000) q.den = 10000 * q := by
    rw [Rat.divInt_eq_div]
    push_cast
    rw [mul_comm (q.num : ℚ) 10000, mul_div_assoc, Rat.num_div_den]
  rw [hq]
  have hk0 : (0 : ℤ) ≤ roundHalfEven (10000 * q) := by
    apply rhe_ge
    push_cast
    linarith
  have hk1 : roundHalfEven (10000 * q) ≤ (10000 : ℤ) := by
    apply rhe_le
    push_cast
    linarith
  rw [Rat.divInt_eq_div]
  constructor
  · apply div_nonneg _ (by norm_num)
    exact_mod_cast hk0
  · rw [div_le_one (by norm_num)]
    exact_mod_cast hk1

theorem round4_fix (k : ℤ) : round4 (Rat.divInt k 10000) = Rat.divInt k 10000 := by
  unfold round4
  have hrv : Rat.divInt k 10000 = (k : ℚ) / 10000 := Rat.divInt_eq_div k 10000
  have h1 : Rat.divInt ((Rat.divInt k 10000).num * 10000) (Rat.divInt k 10000).den
      = (k : ℚ) := by
    rw [Rat.divInt_eq_div]
    push_cast
    rw [mul_comm ((Rat.divInt k 10000).num : ℚ) 10000, mul_div_assoc,
      Rat.num_div_den, hrv, mul_comm, div_mul_cancel₀ _ (by norm_num : (10000:ℚ) ≠ 0)]
  rw [h1, rhe_intCast]

theorem round4_idem (q : ℚ) : round4 (round4 q) = round4 q :=
  round4_fix (roundHalfEven (Rat.divInt (q.num * 10000) q.den))

/-! ### Character content of the regex matchers -/

theorem ne_of_class {P : Char → Bool} {c d : Char} (hc : P c = true)
    (h : P d = false) : ¬ (c = d) := by
  intro he
  subst he
  rw [h] at hc
  cases hc

theorem char_le_toNat {a b : Char} (h : a ≤ b) : a.toNat ≤ b.toNat := by
  have h' : a.val ≤ b.val := h
  unfold Char.toNat
  exact_mod_cast h'

theorem forall_of_split {P : Char → Prop} {cs : List Char} {i : ℕ}
    (hlt : i < cs.length) (h1 : ∀ c ∈ cs.take i, P c) (h2 : P cs[i])
    (h3 : ∀ c ∈ cs.drop (i + 1), P c) : ∀ c ∈ cs, P c := by
  intro c hc
  rw [← List.take_append_drop i cs] at hc
  rcases List.mem_append.mp hc with h | h
  · exact h1 c h
  · rw [List.drop_eq_getElem_cons hlt] at h
    rcases List.mem_cons.mp h with rfl | h
    · exact h2
    · exact h3 c h

theorem localChar_not_space {c : Char} (h : isLocalChar c = true) :
    isPySpace c = false :=
  isPySpace_false_of_class h (by decide) (by decide) (by decide) (by decide)
    (by decide) (by decide)

theorem domainChar_not_space {c : Char} (h : isDomainChar c = true) :
    isPySpace c = false :=
  isPySpace_false_of_class h (by decide) (by decide) (by decide) (by decide)
    (by decide) (by decide)

theorem alpha_not_space {c : Char} (h : c.isAlpha = true) :
    isPySpace c = false :=
  isPySpace_false_of_class h (by decide) (by decide) (by decide) (by decide)
    (by decide) (by decide)

theorem orderIdMatch_chars {s : String} (h : orderIdMatch s = true) :
    ∀ c ∈ s.data, isPySpace c = false ∧ c.isLower = false := by
  unfold orderIdMatch at h
  split at h
  next ds heq =>
    simp only [Bool.and_eq_true, decide_eq_true_eq, List.all_eq_true] at h
    intro c hc
    rw [heq] at hc
    simp only [List.mem_cons] at hc
    rcases hc with rfl | rfl | rfl | rfl | hc
    · exact ⟨by decide, by decide⟩
    · exact ⟨by decide, by decide⟩
    · exact ⟨by decide, by decide⟩
    · exact ⟨by decide, by decide⟩
    · have hd := h.2 c hc
      exact ⟨digit_not_space hd, digit_not_lower hd⟩
  next => exact absurd h (by simp)

theorem custIdMatch_chars {s : String} (h : custIdMatch s = true) :
    ∀ c ∈ s.data, isPySpace c = false ∧ c.isLower = false := by
  unfold custIdMatch at h
  split at h
  next ds heq =>
    simp only [Bool.and_eq_true, decide_eq_true_eq, List.all_eq_true] at h
    intro c hc
    rw [heq] at hc
    simp only [List.mem_cons] at hc
    rcases hc with rfl | rfl | rfl | rfl | rfl | hc
    · exact ⟨by decide, by decide⟩
    · exact ⟨by decide, by decide⟩
    · exact ⟨by decide, by decide⟩
    · exact ⟨by decide, by decide⟩
    · exact ⟨by decide, by decide⟩
    · have hd := h.2 c hc
      exact ⟨digit_not_space hd, digit_not_lower hd⟩
  next => exact absurd h (by simp)

theorem skuMatch_chars {s : String} (h : skuMatch s = true) :
    ∀ c ∈ s.data, isPySpace c = false ∧ c.isLower = false := by
  unfold skuMatch at h
  split at h
  next a b ds heq =>
    simp only [Bool.and_eq_true, decide_eq_true_eq, List.all_eq_true] at h
    intro c hc
    rw [heq] at hc
    simp only [List.mem_cons] at hc
    rcases hc with rfl | rfl | rfl | hc
    · exact ⟨upper_not_space h.1.1.1, upper_not_lower h.1.1.1⟩
    · exact ⟨upper_not_space h.1.1.2, upper_not_lower h.1.1.2⟩
    · exact ⟨by decide, by decide⟩
    · have hd := h.2 c hc
      exact ⟨digit_not_space hd, digit_not_lower hd⟩
  next => exact absurd h (by simp)

theorem gstin14_chars {c : Char} (h : isGstin14 c = true) :
    isPySpace c = false ∧ c.isLower = false := by
  unfold isGstin14 at h
  rcases (Bool.or_eq_true _ _).mp h with h1 | h1
  · simp only [Bool.and_eq_true, decide_eq_true_eq] at h1
    have e1 := char_le_toNat h1.1
    have e2 := char_le_toNat h1.2
    have v1 : ('1' : Char).toNat = 49 := by decide
    have v2 : ('9' : Char).toNat = 57 := by decide
    have hd : c.isDigit = true := toNat_isDigit (by omega) (by omega)
    exact ⟨digit_not_space hd, digit_not_lower hd⟩
  · exact ⟨upper_not_space h1, upper_not_lower h1⟩

theorem gstin15_chars {c : Char} (h : isGstin15 c = true) :
    isPySpace c = false ∧ c.isLower = false := by
  unfold isGstin15 at h
  rcases (Bool.or_eq_true _ _).mp h with h1 | h1
  · exact ⟨digit_not_space h1, digit_not_lower h1⟩
  · exact ⟨upper_not_space h1, upper_not_lower h1⟩

theorem gstinMatch_chars {s : String} (h : gstinMatch s = true) :
    ∀ c ∈ s.data, isPySpace c = false ∧ c.isLower = false := by
  unfold gstinMatch at h
  split at h
  next d1 d2 a1 a2 a3 a4 a5 n1 n2 n3 n4 e1 e2 e3 heq =>
    simp only [Bool.and_eq_true, decide_eq_true_eq] at h
    obtain ⟨⟨⟨⟨⟨⟨⟨⟨⟨⟨⟨⟨⟨p1, p2⟩, p3⟩, p4⟩, p5⟩, p6⟩, p7⟩, p8⟩, p9⟩, p10⟩,
      p11⟩, p12⟩, p13⟩, p14⟩ := h
    intro c hc
    rw [heq] at hc
    simp only [List.mem_cons, List.not_mem_nil, or_false] at hc
    rcases hc with rfl | rfl | rfl | rfl | rfl | rfl | rfl | rfl | rfl | rfl |
      rfl | rfl | rfl | rfl | rfl
    · exact ⟨digit_not_space p1, digit_not_lower p1⟩
    · exact ⟨digit_not_space p2, digit_not_lower p2⟩
    · exact ⟨upper_not_space p3, upper_not_lower p3⟩
    · exact ⟨upper_not_space p4, upper_not_lower p4⟩
    · exact ⟨upper_not_space p5, upper_not_lower p5⟩
    · exact ⟨upper_not_space p6, upper_not_lower p6⟩
    · exact ⟨upper_not_space p7, upper_not_lower p7⟩
    · exact ⟨digit_not_space p8, digit_not_lower p8⟩
    · exact ⟨digit_not_space p9, digit_not_lower p9⟩
    · exact ⟨digit_not_space p10, digit_not_lower p10⟩
    · exact ⟨digit_not_space p11, digit_not_lower p11⟩
    · exact ⟨upper_not_space p12, upper_not_lower p12⟩
    · exact gstin14_chars p13
    · exact ⟨by decide, by decide⟩
    · exact gstin15_chars p14
  next => exact absurd h (by simp)

theorem domainOk_chars {cs : List Char} (h : domainOk cs = true) :
    ∀ c ∈ cs, isPySpace c = false := by
  unfold domainOk at h
  simp only [List.any_eq_true, List.mem_range, Bool.and_eq_true,
    decide_eq_true_eq, List.all_eq_true] at h
  obtain ⟨i, hi, ⟨⟨⟨hpos, hdom⟩, hdot⟩, hlen⟩, halpha⟩ := h
  have hgi : cs[i] = '.' := by
    rw [List.get?_eq_getElem?, List.getElem?_eq_getElem hi] at hdot
    exact Option.some.inj hdot
  apply forall_of_split (P := fun c => isPySpace c = false) hi
  · intro c hc
    exact domainChar_not_space (hdom c hc)
  · rw [hgi]
    decide
  · intro c hc
    exact alpha_not_space (halpha c hc)

theorem emailMatchL_chars {cs : List Char} (h : emailMatchL cs = true) :
    ∀ c ∈ cs, isPySpace c = false := by
  unfold emailMatchL at h
  simp only [List.any_eq_true, List.mem_range, Bool.and_eq_true,
    decide_eq_true_eq, List.all_eq_true] at h
  obtain ⟨i, hi, ⟨⟨hpos, hloc⟩, hat⟩, hdom⟩ := h
  have hgi : cs[i] = '@' := by
    rw [List.get?_eq_getElem?, List.getElem?_eq_getElem hi] at hat
    exact Option.some.inj hat
  apply forall_of_split (P := fun c => isPySpace c = false) hi
  · intro c hc
    exact localChar_not_space (hloc c hc)
  · rw [hgi]
    decide
  · intro c hc
    exact domainOk_chars hdom c hc

theorem phoneClean_chars {cs : List Char} :
    ∀ c ∈ phoneCleanL cs, (c.isDigit || c = '+') = true := by
  intro c hc
  exact (List.mem_filter.mp hc).2

theorem phoneChar_not_space {c : Char} (h : (c.isDigit || c = '+') = true) :
    isPySpace c = false :=
  isPySpace_false_of_class (P := fun c => c.isDigit || c = '+') h (by decide)
    (by decide) (by decide) (by decide) (by decide) (by decide)

theorem pyUpper_alpha_upper {s : String} (h : s.data.all Char.isAlpha = true) :
    ∀ c ∈ (pyUpper s).data, c.isUpper = true := by
  intro c hc
  unfold pyUpper at hc
  simp only [List.mem_map] at hc
  obtain ⟨a, ha, rfl⟩ := hc
  exact alpha_toUpper_isUpper (List.all_eq_true.mp h a ha)

theorem pyUpper_pyLower_of_upper {s : String} (hs : ∀ c ∈ s.data, c.isUpper = true) :
    pyUpper (pyLower s) = s := by
  unfold pyUpper pyLower
  have hd : (s.data.map Char.toLower).map Char.toUpper = s.data := by
    rw [List.map_map]
    conv_rhs => rw [← List.map_id s.data]
    exact List.map_congr_left (fun c hc => upper_toLower_toUpper (hs c hc))
  simp only [hd]

/-! ### Branch extractions of `validate_and_clean` -/

/-- Fallthrough branch of `validate_and_clean`, as a reusable lemma. -/
theorem validate_unrecognized {c : String} (hc : c ∉ recognizedFields) (v : Val) :
    validate_and_clean c v = ⟨v, true, none, none⟩ := by
  simp only [recognizedFields, freeTextFields, List.mem_append, List.mem_cons,
    List.not_mem_nil, or_false, not_or] at hc
  obtain ⟨⟨h1, h2, h3, h4, h5, h6, h7, h8, h9, h10, h11, h12, h13, h14, h15,
    h16⟩, h17, h18, h19, h20, h21, h22, h23, h24⟩ := hc
  simp [validate_and_clean, freeTextFields, h1, h2, h3, h4, h5, h6, h7, h8,
    h9, h10, h11, h12, h13, h14, h15, h16, h17, h18, h19, h20, h21, h22, h23,
    h24]

/-- The `quantity` branch of `validate_and_clean`, extracted. -/
theorem validate_quantity (value : Val) :
    validate_and_clean "quantity" value =
      (match toInt? (vStrip value) with
      | some iv => if 0 ≤ iv then ⟨Val.vint iv, true, none, none⟩
                   else ⟨value, false, some "Invalid quantity", none⟩
      | none => ⟨value, false, some "Invalid quantity", none⟩) := by
  simp [validate_and_clean, freeTextFields]

/-- The `tax_pct` branch of `validate_and_clean`, extracted. -/
theorem validate_taxpct (value : Val) :
    validate_and_clean "tax_pct" value =
      (match toFraction? (vStrip value) with
      | some fv => if 0 ≤ fv ∧ fv ≤ 1 then ⟨Val.vnum (round4 fv), true, none, none⟩
                   else ⟨value, false, some "Invalid percent value", none⟩
      | none => ⟨value, false, some "Invalid percent value", none⟩) := by
  simp [validate_and_clean, freeTextFields]

/-- The three money branches of `validate_and_clean`, extracted. -/
theorem validate_money {c : String}
    (hc : c = "unit_price" ∨ c = "shipping_fee" ∨ c = "total_amount")
    (value : Val) :
    validate_and_clean c value =
      (match toFloat? (vStrip value) with
      | some fv => if 0 ≤ fv then ⟨Val.vnum fv, true, none, none⟩
                   else ⟨value, false, some ("Invalid " ++ c), none⟩
      | none => ⟨value, false, some ("Invalid " ++ c), none⟩) := by
  rcases hc with rfl | rfl | rfl <;> simp [validate_and_clean, freeTextFields]

/-- The `currency` branch of `validate_and_clean`, extracted. -/
theorem validate_currency (value : Val) :
    validate_and_clean "currency" value =
      (match normalizeCurrency (vStrip value) with
      | some cv => if cv ≠ "" then ⟨Val.vstr cv, true, none, none⟩
                   else ⟨value, false, some "Unknown currency", none⟩
      | none => ⟨value, false, some "Unknown currency", none⟩) := by
  simp [validate_and_clean, freeTextFields]

/-! ### Per-field idempotence of `validate_and_clean` -/

theorem order_id_idem {v : Val}
    (h : (validate_and_clean "order_id" v).valid = true) :
    validate_and_clean "order_id" ((validate_and_clean "order_id" v).value) =
      ⟨(validate_and_clean "order_id" v).value, true, none, none⟩ := by
  rcases v with s | n | q | _
  case vstr =>
    by_cases hm : orderIdMatch (pyUpper (pyStrip s)) = true
    · have h1 : validate_and_clean "order_id" (Val.vstr s) =
          ⟨Val.vstr (pyUpper (pyStrip s)), true, none, none⟩ := by
        simp [validate_and_clean, vStrip, hm]
      rw [h1]
      have hs : pyStrip (pyUpper (pyStrip s)) = pyUpper (pyStrip s) :=
        pyStrip_of_no_space (fun c hc => (orderIdMatch_chars hm c hc).1)
      have hu : pyUpper (pyUpper (pyStrip s)) = pyUpper (pyStrip s) :=
        pyUpper_fix (fun c hc => (orderIdMatch_chars hm c hc).2)
      simp [validate_and_clean, vStrip, hs, hu, hm]
    · exfalso
      have h1 : (validate_and_clean "order_id" (Val.vstr s)).valid = false := by
        simp [validate_and_clean, vStrip, hm]
      rw [h1] at h
      cases h
  all_goals (exfalso; simp [validate_and_clean, vStrip] at h)

theorem customer_id_idem {v : Val}
    (h : (validate_and_clean "customer_id" v).valid = true) :
    validate_and_clean "customer_id"
        ((validate_and_clean "customer_id" v).value) =
      ⟨(validate_and_clean "customer_id" v).value, true, none, none⟩ := by
  rcases v with s | n | q | _
  case vstr =>
    by_cases hm : custIdMatch (removeSpaces (pyUpper (pyStrip s))) = true
    · have h1 : validate_and_clean "customer_id" (Val.vstr s) =
          ⟨Val.vstr (removeSpaces (pyUpper (pyStrip s))), true, none, none⟩ := by
        simp [validate_and_clean, vStrip, hm]
      rw [h1]
      have hns := fun c hc => (custIdMatch_chars hm c hc).1
      have hs : pyStrip (removeSpaces (pyUpper (pyStrip s))) =
          removeSpaces (pyUpper (pyStrip s)) := pyStrip_of_no_space hns
      have hu : pyUpper (removeSpaces (pyUpper (pyStrip s))) =
          removeSpaces (pyUpper (pyStrip s)) :=
        pyUpper_fix (fun c hc => (custIdMatch_chars hm c hc).2)
      have hr : removeSpaces (removeSpaces (pyUpper (pyStrip s))) =
          removeSpaces (pyUpper (pyStrip s)) :=
        removeSpaces_fix (fun c hc => ne_space_of_not_space (hns c hc))
      simp [validate_and_clean, vStrip, hs, hu, hr, hm]
    · exfalso
      have h1 : (validate_and_clean "customer_id" (Val.vstr s)).valid = false := by
        simp [validate_and_clean, vStrip, hm]
      rw [h1] at h
      cases h
  all_goals (exfalso; simp [validate_and_clean, vStrip] at h)

theorem sku_idem {v : Val}
    (h : (validate_and_clean "product_sku" v).valid = true) :
    validate_and_clean "product_sku"
        ((validate_and_clean "product_sku" v).value) =
      ⟨(validate_and_clean "product_sku" v).value, true, none, none⟩ := by
  rcases v with s | n | q | _
  case vstr =>
    by_cases hm : skuMatch (pyStrip (pyUpper (pyStrip s))) = true
    · have h1 : validate_and_clean "product_sku" (Val.vstr s) =
          ⟨Val.vstr (pyStrip (pyUpper (pyStrip s))), true, none, none⟩ := by
        simp [validate_and_clean, vStrip, freeTextFields, hm]
      rw [h1]
      have hs : pyStrip (pyStrip (pyUpper (pyStrip s))) =
          pyStrip (pyUpper (pyStrip s)) :=
        pyStrip_of_no_space (fun c hc => (skuMatch_chars hm c hc).1)
      have hu : pyUpper (pyStrip (pyUpper (pyStrip s))) =
          pyStrip (pyUpper (pyStrip s)) :=
        pyUpper_fix (fun c hc => (skuMatch_chars hm c hc).2)
      simp [validate_and_clean, vStrip, freeTextFields, hs, hu, hm]
    · exfalso
      have h1 : (validate_and_clean "product_sku" (Val.vstr s)).valid = false := by
        simp [validate_and_clean, vStrip, freeTextFields, hm]
      rw [h1] at h
      cases h
  all_goals (exfalso; simp [validate_and_clean, vStrip, freeTextFields] at h)

theorem tax_id_idem {v : Val}
    (h : (validate_and_clean "tax_id" v).valid = true) :
    validate_and_clean "tax_id" ((validate_and_clean "tax_id" v).value) =
      ⟨(validate_and_clean "tax_id" v).value, true, none, none⟩ := by
  rcases v with s | n | q | _
  case vstr =>
    by_cases hm : gstinMatch (pyUpper (pyStrip s)) = true
    · have h1 : validate_and_clean "tax_id" (Val.vstr s) =
          ⟨Val.vstr (pyUpper (pyStrip s)), true, none, none⟩ := by
        simp [validate_and_clean, vStrip, freeTextFields, pyStrip_idem, hm]
      rw [h1]
      have hs : pyStrip (pyUpper (pyStrip s)) = pyUpper (pyStrip s) :=
        pyStrip_of_no_space (fun c hc => (gstinMatch_chars hm c hc).1)
      have hu : pyUpper (pyUpper (pyStrip s)) = pyUpper (pyStrip s) :=
        pyUpper_fix (fun c hc => (gstinMatch_chars hm c hc).2)
      simp [validate_and_clean, vStrip, freeTextFields, hs, hu, hm]
    · exfalso
      have h1 : (validate_and_clean "tax_id" (Val.vstr s)).valid = false := by
        simp [validate_and_clean, vStrip, freeTextFields, pyStrip_idem, hm]
      rw [h1] at h
      cases h
  all_goals (exfalso; simp [validate_and_clean, vStrip, freeTextFields] at h)

theorem customer_name_idem (v : Val) :
    validate_and_clean "customer_name"
        ((validate_and_clean "customer_name" v).value) =
      ⟨(validate_and_clean "customer_name" v).value, true, none, none⟩ := by
  rcases v with s | n | q | _ <;>
    simp [validate_and_clean, vStrip, pyStrip_idem]

theorem freetext_idem {c : String} (hc : c ∈ freeTextFields) (v : Val) :
    validate_and_clean c ((validate_and_clean c v).value) =
      ⟨(validate_and_clean c v).value, true, none, none⟩ := by
  fin_cases hc <;> rcases v with s | n | q | _ <;>
    simp [validate_and_clean, vStrip, pyStrip_idem, freeTextFields]

theorem email_idem {v : Val}
    (h : (validate_and_clean "email" v).valid = true) :
    validate_and_clean "email" ((validate_and_clean "email" v).value) =
      ⟨(validate_and_clean "email" v).value, true, none, none⟩ := by
  rcases v with s | n | q | _
  case vstr =>
    by_cases hm : emailMatch (removeSpaces (pyStrip s)) = true
    · have h1 : validate_and_clean "email" (Val.vstr s) =
          ⟨Val.vstr (removeSpaces (pyStrip s)), true, none, none⟩ := by
        simp [validate_and_clean, vStrip, hm]
      rw [h1]
      have hns : ∀ c ∈ (removeSpaces (pyStrip s)).data, isPySpace c = false :=
        emailMatchL_chars hm
      have hs : pyStrip (removeSpaces (pyStrip s)) = removeSpaces (pyStrip s) :=
        pyStrip_of_no_space hns
      have hr : removeSpaces (removeSpaces (pyStrip s)) =
          removeSpaces (pyStrip s) :=
        removeSpaces_fix (fun c hc => ne_space_of_not_space (hns c hc))
      simp [validate_and_clean, vStrip, hs, hr, hm]
    · have h1 : (validate_and_clean "email" (Val.vstr s)).valid = false := by
        rcases hd : hasDigitRun7 (removeSpaces (pyStrip s)).data with _ | _ <;>
          simp [validate_and_clean, vStrip, hm, hd]
      rw [h1] at h
      cases h
  all_goals (exfalso; simp [validate_and_clean, vStrip] at h)

theorem phone_idem {v : Val}
    (h : (validate_and_clean "phone" v).valid = true) :
    validate_and_clean "phone" ((validate_and_clean "phone" v).value) =
      ⟨(validate_and_clean "phone" v).value, true, none, none⟩ := by
  rcases v with s | n | q | _
  case vstr =>
    by_cases hat : '@' ∈ (pyStrip s).data
    · have h1 : (validate_and_clean "phone" (Val.vstr s)).valid = false := by
        simp [validate_and_clean, vStrip, hat]
      rw [h1] at h
      cases h
    · by_cases h7 : 7 ≤ (digitsOnlyL (phoneCleanL (pyStrip s).data)).length
      · have h1 : validate_and_clean "phone" (Val.vstr s) =
            ⟨Val.vstr ⟨phoneCleanL (pyStrip s).data⟩, true, none, none⟩ := by
          simp [validate_and_clean, vStrip, hat, h7]
        rw [h1]
        have hp : ∀ c ∈ phoneCleanL (pyStrip s).data,
            (c.isDigit || c = '+') = true := phoneClean_chars
        have hns : ∀ c ∈ phoneCleanL (pyStrip s).data, isPySpace c = false :=
          fun c hc => phoneChar_not_space (hp c hc)
        have hs : pyStrip ⟨phoneCleanL (pyStrip s).data⟩ =
            ⟨phoneCleanL (pyStrip s).data⟩ := pyStrip_of_no_space hns
        have hcc : phoneCleanL (phoneCleanL (pyStrip s).data) =
            phoneCleanL (pyStrip s).data := List.filter_eq_self.mpr hp
        have hat2 : '@' ∉ phoneCleanL (pyStrip s).data :=
          fun hm => absurd (hp _ hm) (by decide)
        simp [validate_and_clean, vStrip, hs, hcc, hat2, h7]
      · have h1 : (validate_and_clean "phone" (Val.vstr s)).valid = false := by
          simp [validate_and_clean, vStrip, hat, h7]
        rw [h1] at h
        cases h
  all_goals simp [validate_and_clean, vStrip]

theorem postal_idem {v : Val}
    (h : (validate_and_clean "postal_code" v).valid = true) :
    validate_and_clean "postal_code"
        ((validate_and_clean "postal_code" v).value) =
      ⟨(validate_and_clean "postal_code" v).value, true, none, none⟩ := by
  have hpadcase : ∀ n : ℤ, 0 ≤ n → n ≤ 999999 →
      validate_and_clean "postal_code" (Val.vstr (pad6 n)) =
        ⟨Val.vstr (pad6 n), true, none, none⟩ := by
    intro n h0 h1
    obtain ⟨hl, hdig⟩ := pad6_spec h0 h1
    have hns : ∀ c ∈ (pad6 n).data, isPySpace c = false :=
      fun c hc => digit_not_space (hdig c hc)
    have hs : pyStrip (pad6 n) = pad6 n := pyStrip_of_no_space hns
    have hr : removeSpaces (pad6 n) = pad6 n :=
      removeSpaces_fix (fun c hc => ne_space_of_not_space (hns c hc))
    have hp : pin6Match (pad6 n) = true := pin6_pad6 h0 h1
    simp [validate_and_clean, vStrip, freeTextFields, hs, hr, hp]
  rcases v with s | n | q | _
  case vstr =>
    by_cases hm : pin6Match (removeSpaces (pyStrip s)) = true
    · have h1 : validate_and_clean "postal_code" (Val.vstr s) =
          ⟨Val.vstr (removeSpaces (pyStrip s)), true, none, none⟩ := by
        simp [validate_and_clean, vStrip, freeTextFields, hm]
      rw [h1]
      have hdig : ∀ c ∈ (removeSpaces (pyStrip s)).data, c.isDigit = true := by
        unfold pin6Match at hm
        simp only [Bool.and_eq_true, decide_eq_true_eq, List.all_eq_true] at hm
        exact hm.2
      have hns : ∀ c ∈ (removeSpaces (pyStrip s)).data, isPySpace c = false :=
        fun c hc => digit_not_space (hdig c hc)
      have hs : pyStrip (removeSpaces (pyStrip s)) = removeSpaces (pyStrip s) :=
        pyStrip_of_no_space hns
      have hr : removeSpaces (removeSpaces (pyStrip s)) =
          removeSpaces (pyStrip s) :=
        removeSpaces_fix (fun c hc => ne_space_of_not_space (hns c hc))
      simp [validate_and_clean, vStrip, freeTextFields, hs, hr, hm]
    · have h1 : (validate_and_clean "postal_code" (Val.vstr s)).valid = false := by
        by_cases h6 : (digitsOnlyL (removeSpaces (pyStrip s)).data).length = 6 <;>
          simp [validate_and_clean, vStrip, freeTextFields, hm, h6]
      rw [h1] at h
      cases h
  case vint =>
    by_cases hr : 0 ≤ n ∧ n ≤ 999999
    · have h1 : validate_and_clean "postal_code" (Val.vint n) =
          ⟨Val.vstr (pad6 n), true, none, none⟩ := by
        simp [validate_and_clean, vStrip, freeTextFields, hr]
      rw [h1]
      exact hpadcase n hr.1 hr.2
    · have h1 : (validate_and_clean "postal_code" (Val.vint n)).valid = false := by
        simp [validate_and_clean, vStrip, freeTextFields, hr]
      rw [h1] at h
      cases h
  case vnum =>
    by_cases hr : 0 ≤ roundHalfEven q ∧ roundHalfEven q ≤ 999999
    · have h1 : validate_and_clean "postal_code" (Val.vnum q) =
          ⟨Val.vstr (pad6 (roundHalfEven q)), true, none, none⟩ := by
        simp [validate_and_clean, vStrip, freeTextFields, hr]
      rw [h1]
      exact hpadcase _ hr.1 hr.2
    · have h1 : (validate_and_clean "postal_code" (Val.vnum q)).valid = false := by
        simp [validate_and_clean, vStrip, freeTextFields, hr]
      rw [h1] at h
      cases h
  case vnone => simp [validate_and_clean, vStrip, freeTextFields] at h

theorem quantity_idem {v : Val}
    (h : (validate_and_clean "quantity" v).valid = true) :
    validate_and_clean "quantity" ((validate_and_clean "quantity" v).value) =
      ⟨(validate_and_clean "quantity" v).value, true, none, none⟩ := by
  rcases hf : toInt? (vStrip v) with _ | iv
  · rw [validate_quantity, hf] at h
    simp at h
  · by_cases h0 : 0 ≤ iv
    · have h1 : validate_and_clean "quantity" v =
          ⟨Val.vint iv, true, none, none⟩ := by
        simp [validate_quantity, hf, h0]
      rw [h1]
      have ht : toInt? (vStrip (Val.vint iv)) = some iv := by
        simp [toInt?, toFloat?, vStrip, rhe_intCast]
      simp [validate_quantity, ht, h0]
    · rw [validate_quantity, hf] at h
      simp [h0] at h

theorem money_idem {c : String}
    (hc : c = "unit_price" ∨ c = "shipping_fee" ∨ c = "total_amount") {v : Val}
    (h : (validate_and_clean c v).valid = true) :
    validate_and_clean c ((validate_and_clean c v).value) =
      ⟨(validate_and_clean c v).value, true, none, none⟩ := by
  rcases hf : toFloat? (vStrip v) with _ | fv
  · rw [validate_money hc, hf] at h
    simp at h
  · by_cases h0 : 0 ≤ fv
    · have h1 : validate_and_clean c v = ⟨Val.vnum fv, true, none, none⟩ := by
        simp [validate_money hc, hf, h0]
      rw [h1]
      have ht : toFloat? (vStrip (Val.vnum fv)) = some fv := rfl
      simp [validate_money hc, ht, h0]
    · rw [validate_money hc, hf] at h
      simp [h0] at h

theorem pct_idem_core {c : String} {v : Val}
    (he : ∀ value, validate_and_clean c value =
      (match toFraction? (vStrip value) with
      | some fv => if 0 ≤ fv ∧ fv ≤ 1 then
            ⟨Val.vnum (round4 fv), true, none, none⟩
          else ⟨value, false, some "Invalid percent value", none⟩
      | none => ⟨value, false, some "Invalid percent value", none⟩))
    (h : (validate_and_clean c v).valid = true) :
    validate_and_clean c ((validate_and_clean c v).value) =
      ⟨(validate_and_clean c v).value, true, none, none⟩ := by
  rcases hf : toFraction? (vStrip v) with _ | q
  · rw [he, hf] at h
    simp at h
  · by_cases hq : 0 ≤ q ∧ q ≤ 1
    · have h1 : validate_and_clean c v =
          ⟨Val.vnum (round4 q), true, none, none⟩ := by
        simp [he, hf, hq]
      rw [h1]
      obtain ⟨hw0, hw1⟩ := round4_bounds hq.1 hq.2
      have htf : toFraction? (vStrip (Val.vnum (round4 q))) = some (round4 q) := by
        simp [vStrip, toFraction?, hw0, hw1]
      simp [he, htf, hw0, hw1, round4_idem]
    · rw [he, hf] at h
      simp [hq] at h

theorem pyUpper_len {s : String} : (pyUpper s).data.length = s.data.length := by
  unfold pyUpper
  simp

theorem pyLower_len {s : String} : (pyLower s).data.length = s.data.length := by
  unfold pyLower
  simp

theorem currency_upper_fix {s : String} (h3 : s.length = 3)
    (ha : s.data.all Char.isAlpha = true) :
    normalizeCurrency (vStrip (Val.vstr (pyUpper s))) = some (pyUpper s) := by
  have hu : ∀ c ∈ (pyUpper s).data, c.isUpper = true := pyUpper_alpha_upper ha
  have hstrip : pyStrip (pyUpper s) = pyUpper s :=
    pyStrip_of_no_space (fun c hc => upper_not_space (hu c hc))
  have hlen : (pyUpper s).data.length = 3 := by
    rw [pyUpper_len]
    exact h3
  have hne1 : ¬ (pyUpper s = "₹") := by
    intro he
    rw [he] at hlen
    exact absurd hlen (by decide)
  have hne2 : ¬ (pyUpper s = "$") := by
    intro he
    rw [he] at hlen
    exact absurd hlen (by decide)
  have hv : vStrip (Val.vstr (pyUpper s)) = Val.vstr (pyStrip (pyUpper s)) := rfl
  rw [hv, hstrip]
  simp only [normalizeCurrency]
  rw [hstrip, if_neg hne1, if_neg hne2]
  by_cases hinr : pyLower (pyUpper s) = "inr"
  · rw [if_pos (Or.inl hinr)]
    have hul := pyUpper_pyLower_of_upper hu
    rw [hinr] at hul
    have hINR : pyUpper s = "INR" := by
      rw [← hul]
      decide
    rw [hINR]
  · have hl : (pyLower (pyUpper s)).data.length = 3 := by
      rw [pyLower_len, hlen]
    have hor : ¬ (pyLower (pyUpper s) = "inr" ∨ pyLower (pyUpper s) = "rs" ∨
        pyLower (pyUpper s) = "rupees" ∨ pyLower (pyUpper s) = "₹") := by
      rintro (he | he | he | he)
      · exact hinr he
      · rw [he] at hl
        exact absurd hl (by decide)
      · rw [he] at hl
        exact absurd hl (by decide)
      · rw [he] at hl
        exact absurd hl (by decide)
    have halpha : (pyUpper s).data.all Char.isAlpha = true :=
      List.all_eq_true.mpr (fun c hc => upper_isAlpha (hu c hc))
    rw [if_neg hor, if_pos ⟨hlen, halpha⟩,
      pyUpper_fix (fun c hc => upper_not_lower (hu c hc))]

theorem normalizeCurrency_fix {v : Val} {cv : String}
    (hn : normalizeCurrency v = some cv) :
    normalizeCurrency (vStrip (Val.vstr cv)) = some cv := by
  rcases v with s | n | q | _
  case vint => exact absurd hn (by simp [normalizeCurrency])
  case vnum => exact absurd hn (by simp [normalizeCurrency])
  case vnone => exact absurd hn (by simp [normalizeCurrency])
  case vstr =>
    simp only [normalizeCurrency] at hn
    by_cases h1 : pyStrip s = "₹"
    · rw [if_pos h1] at hn
      obtain rfl : cv = "INR" := (Option.some.inj hn).symm
      decide
    · rw [if_neg h1] at hn
      by_cases h2 : pyStrip s = "$"
      · rw [if_pos h2] at hn
        obtain rfl : cv = "USD" := (Option.some.inj hn).symm
        decide
      · rw [if_neg h2] at hn
        by_cases h3 : pyLower (pyStrip s) = "inr" ∨ pyLower (pyStrip s) = "rs" ∨
            pyLower (pyStrip s) = "rupees" ∨ pyLower (pyStrip s) = "₹"
        · rw [if_pos h3] at hn
          obtain rfl : cv = "INR" := (Option.some.inj hn).symm
          decide
        · rw [if_neg h3] at hn
          by_cases h4 : (pyStrip s).length = 3 ∧
              (pyStrip s).data.all Char.isAlpha
          · rw [if_pos h4] at hn
            obtain rfl : cv = pyUpper (pyStrip s) := (Option.some.inj hn).symm
            exact currency_upper_fix h4.1 h4.2
          · rw [if_neg h4] at hn
            exact absurd hn (by simp)

theorem currency_idem {v : Val}
    (h : (validate_and_clean "currency" v).valid = true) :
    validate_and_clean "currency" ((validate_and_clean "currency" v).value) =
      ⟨(validate_and_clean "currency" v).value, true, none, none⟩ := by
  rcases hn : normalizeCurrency (vStrip v) with _ | cv
  · rw [validate_currency, hn] at h
    simp at h
  · by_cases hne : cv = ""
    · subst hne
      rw [validate_currency, hn] at h
      simp at h
    · have h1 : validate_and_clean "currency" v =
          ⟨Val.vstr cv, true, none, none⟩ := by
        simp [validate_currency, hn, hne]
      rw [h1]
      have hfix : normalizeCurrency (vStrip (Val.vstr cv)) = some cv :=
        normalizeCurrency_fix hn
      simp [validate_currency, hfix, hne]

/-! ### C5: idempotence of `validate_and_clean` -/

/-- C5 counterexample: for the `order_date` field, re-running
`validate_and_clean` on the cleaned value of a valid input does NOT return
the same value: `"5/1/24"` cleans to `"2024-01-05"` (valid), but cleaning
`"2024-01-05"` again yields `"2024-05-01"` (dateutil with `dayfirst=True`
swaps day and month of an ISO date whose last component is ≤ 12). -/
theorem order_date_not_idempotent :
    validate_and_clean "order_date" (Val.vstr "5/1/24") =
      ⟨Val.vstr "2024-01-05", true, none, none⟩ ∧
    validate_and_clean "order_date" (Val.vstr "2024-01-05") =
      ⟨Val.vstr "2024-05-01", true, none, none⟩ ∧
    Val.vstr "2024-05-01" ≠ Val.vstr "2024-01-05" := by
  decide

/-- C5 (amended): for every canonical field except `order_date`, re-running
`validate_and_clean` on the cleaned value of any input it judged valid
returns the same cleaned value, again valid (cleaning is a fixed point);
in particular cleaning `"ord-0001"` twice yields `"ORD-0001"` both times. -/
theorem validate_clean_fixed_point :
    (∀ (c : String) (v : Val), c ≠ "order_date" →
      (validate_and_clean c v).valid = true →
      validate_and_clean c ((validate_and_clean c v).value) =
        ⟨(validate_and_clean c v).value, true, none, none⟩) ∧
    validate_and_clean "order_id" (Val.vstr "ord-0001") =
      ⟨Val.vstr "ORD-0001", true, none, none⟩ ∧
    validate_and_clean "order_id" (Val.vstr "ORD-0001") =
      ⟨Val.vstr "ORD-0001", true, none, none⟩ := by
  refine ⟨?_, by decide, by decide⟩
  intro c v hdate h
  by_cases hOid : c = "order_id"
  · subst hOid; exact order_id_idem h
  by_cases hCid : c = "customer_id"
  · subst hCid; exact customer_id_idem h
  by_cases hCname : c = "customer_name"
  · subst hCname; exact customer_name_idem v
  by_cases hEmail : c = "email"
  · subst hEmail; exact email_idem h
  by_cases hPhone : c = "phone"
  · subst hPhone; exact phone_idem h
  by_cases hPostal : c = "postal_code"
  · subst hPostal; exact postal_idem h
  by_cases hSku : c = "product_sku"
  · subst hSku; exact sku_idem h
  by_cases hQty : c = "quantity"
  · subst hQty; exact quantity_idem h
  by_cases hUP : c = "unit_price"
  · subst hUP; exact money_idem (Or.inl rfl) h
  by_cases hFee : c = "shipping_fee"
  · subst hFee; exact money_idem (Or.inr (Or.inl rfl)) h
  by_cases hTot : c = "total_amount"
  · subst hTot; exact money_idem (Or.inr (Or.inr rfl)) h
  by_cases hCur : c = "currency"
  · subst hCur; exact currency_idem h
  by_cases hDpct : c = "discount_pct"
  · subst hDpct; exact pct_idem_core validate_discount h
  by_cases hTpct : c = "tax_pct"
  · subst hTpct; exact pct_idem_core validate_taxpct h
  by_cases hTid : c = "tax_id"
  · subst hTid; exact tax_id_idem h
  by_cases hFree : c ∈ freeTextFields
  · exact freetext_idem hFree v
  have hnr : c ∉ recognizedFields := by
    intro hmem
    simp only [recognizedFields, List.mem_append, List.mem_cons,
      List.not_mem_nil, or_false] at hmem
    rcases hmem with h' | h'
    · rcases h' with h' | h' | h' | h' | h' | h' | h' | h' | h' | h' | h' |
        h' | h' | h' | h' | h'
      · exact hOid h'
      · exact hdate h'
      · exact hCid h'
      · exact hCname h'
      · exact hEmail h'
      · exact hPhone h'
      · exact hPostal h'
      · exact hSku h'
      · exact hQty h'
      · exact hUP h'
      · exact hCur h'
      · exact hDpct h'
      · exact hTpct h'
      · exact hFee h'
      · exact hTot h'
      · exact hTid h'
    · exact hFree h'
  simp [validate_unrecognized hnr]

/-- Witness for the quantified part of `validate_clean_fixed_point`:
the `quantity` field at `" 3 "`. -/
theorem validate_clean_fixed_point_witness :
    ("quantity" : String) ≠ "order_date" ∧
    (validate_and_clean "quantity" (Val.vstr " 3 ")).valid = true ∧
    validate_and_clean "quantity"
        ((validate_and_clean "quantity" (Val.vstr " 3 ")).value) =
      ⟨(validate_and_clean "quantity" (Val.vstr " 3 ")).value, true,
        none, none⟩ :=
  ⟨by decide, by decide,
    validate_clean_fixed_point.1 "quantity" (Val.vstr " 3 ") (by decide)
      (by decide)⟩

/-! ### C3: cross-field email/phone suggestions -/

/-- A full email match always contains an `@`. -/
theorem emailMatchL_at {cs : List Char} (h : emailMatchL cs = true) :
    '@' ∈ cs := by
  unfold emailMatchL at h
  rw [List.any_eq_true] at h
  obtain ⟨i, _, hcond⟩ := h
  have hat : cs.get? i = some '@' := by
    have := (Bool.and_eq_true _ _).mp hcond
    have := (Bool.and_eq_true _ _).mp this.1
    simpa using this.2
  exact List.get?_mem hat

/-- A found email group always contains an `@`. -/
theorem findEmail_at : ∀ {cs g : List Char}, findEmail cs = some g → '@' ∈ g := by
  intro cs
  induction cs with
  | nil => intro g h; cases h
  | cons c t ih =>
    intro g h
    unfold findEmail at h
    rcases hg : emailGroupAt (c :: t) with _ | g0
    · rw [hg] at h
      exact ih h
    · rw [hg] at h
      cases h
      unfold emailGroupAt at hg
      dsimp only at hg
      split at hg
      · cases hg
      · split at hg
        · split at hg
          · rename_i rest _ g1 _
            simp only [Option.some.injEq] at hg
            rw [← hg]
            exact List.mem_append_right _ (List.mem_cons_self _ _)
          · cases hg
        · cases hg

/-- Whatever `_extract_email_from_row` returns contains an `@` — in
particular it is never a bare digit sequence. -/
theorem extractEmailFromRow_at (row : List (String × Val)) :
    ∀ (helpers : List String) (s : String),
      extractEmailFromRow row helpers = some s → '@' ∈ s.data := by
  intro helpers
  induction helpers with
  | nil => intro s h; cases h
  | cons c rest ih =>
    intro s h
    unfold extractEmailFromRow at h
    rcases hcell : (row.find? (fun p => p.1 = c)).map (fun p => p.2)
      with _ | cell
    all_goals rw [hcell] at h; dsimp only at h
    case none => exact ih s h
    split at h
    · exact ih s h
    · split at h
      · rename_i hm
        cases h
        exact emailMatchL_at hm
      · rcases hf : findEmail (pyStrip (pyValStr cell)).data with _ | g
        all_goals rw [hf] at h; dsimp only at h
        · exact ih s h
        · cases h
          exact findEmail_at hf

/-- Whatever `_extract_phone_from_row` returns consists of digits and `+`
only, with at least 7 digits — in particular it is never an email address. -/
theorem extractPhoneFromRow_shape (row : List (String × Val)) :
    ∀ (helpers : List String) (s : String),
      extractPhoneFromRow row helpers = some s →
      s.data.all (fun c => c.isDigit || c = '+') = true ∧
        7 ≤ (digitsOnlyL s.data).length := by
  intro helpers
  induction helpers with
  | nil => intro s h; cases h
  | cons c rest ih =>
    intro s h
    unfold extractPhoneFromRow at h
    rcases hcell : (row.find? (fun p => p.1 = c)).map (fun p => p.2)
      with _ | cell
    all_goals rw [hcell] at h; dsimp only at h
    case none => exact ih s h
    split at h
    · exact ih s h
    · split at h
      · rename_i hlen
        cases h
        constructor
        · rw [List.all_eq_true]
          intro x hx
          exact (List.mem_filter.mp hx).2
        · exact hlen
      · exact ih s h

/-- The email validator itself never produces a repair suggestion. -/
theorem validate_email_sugg (v : Val) :
    (validate_and_clean "email" v).suggestion = none := by
  cases v <;> simp [validate_and_clean, vStrip]
  all_goals repeat' split
  all_goals rfl

/-- The phone validator itself never produces a repair suggestion. -/
theorem validate_phone_sugg (v : Val) :
    (validate_and_clean "phone" v).suggestion = none := by
  cases v <;> simp [validate_and_clean, vStrip]
  all_goals repeat' split
  all_goals rfl

/-- The suggestion discipline of the claim: an email issue's suggestion
always contains `@` (so a digits-only helper value is never attached), and a
phone issue's suggestion is always a `[0-9+]` string with at least 7 digits
(so an email address is never attached). -/
def suggOk (i : Issue) : Bool :=
  (if i.column = "email" then
    (match i.suggestion with
     | some s => decide ('@' ∈ s.data)
     | none => true)
   else true) &&
  (if i.column = "phone" then
    (match i.suggestion with
     | some s => s.data.all (fun c => c.isDigit || c = '+') &&
         decide (7 ≤ (digitsOnlyL s.data).length)
     | none => true)
   else true)

theorem suggOk_none {i : Issue} (h : i.suggestion = none) : suggOk i = true := by
  unfold suggOk
  rw [h]
  simp

/-- Every issue one cell of step 3 emits respects the suggestion
discipline. -/
theorem processCell_suggOk (raw : Df) (truth : Truth)
    (helpers : List String) (use_llm : Bool)
    (cleanResp : String → String → String → Option String)
    (col : String) (idx : ℕ) (val : Val) :
    ∀ i ∈ (processCell raw truth helpers use_llm cleanResp col idx val).2,
      suggOk i = true := by
  intro i hi
  unfold processCell at hi
  dsimp only at hi
  split at hi
  · split at hi
    · rename_i hcol
      rw [List.mem_singleton] at hi
      subst hi
      subst hcol
      rcases hx : extractEmailFromRow (rawRow raw idx) helpers with _ | s
      · simp [suggOk, hx]
      · have hat := extractEmailFromRow_at (rawRow raw idx) helpers s hx
        simp [suggOk, hx, hat]
    · split at hi
      · rename_i hcol
        rw [List.mem_singleton] at hi
        subst hi
        subst hcol
        rcases hx : extractPhoneFromRow (rawRow raw idx) helpers with _ | s
        · simp [suggOk, hx]
        · obtain ⟨h1, h2⟩ := extractPhoneFromRow_shape (rawRow raw idx)
            helpers s hx
          simp [suggOk, hx, h1, h2]
      · rw [List.mem_singleton] at hi
        subst hi
        exact suggOk_none rfl
  · split at hi
    · cases hi
    · rw [List.mem_singleton] at hi
      subst hi
      by_cases hcol : col = "email"
      · subst hcol
        rcases hx : extractEmailFromRow (rawRow raw idx) helpers with _ | s
        · simp [suggOk, validate_email_sugg, hx]
        · have hat := extractEmailFromRow_at (rawRow raw idx) helpers s hx
          simp [suggOk, validate_email_sugg, hx, hat]
      · by_cases hcol2 : col = "phone"
        · subst hcol2
          rcases hx : extractPhoneFromRow (rawRow raw idx) helpers with _ | s
          · simp [suggOk, validate_phone_sugg, hx]
          · obtain ⟨h1, h2⟩ := extractPhoneFromRow_shape (rawRow raw idx)
              helpers s hx
            simp [suggOk, validate_phone_sugg, hx, h1, h2]
        · simp [suggOk, hcol, hcol2]

/-- Every issue one column of step 3 emits respects the suggestion
discipline. -/
theorem processColumn_suggOk (raw : Df) (truth : Truth)
    (helpers : List String) (use_llm : Bool)
    (cleanResp : String → String → String → Option String)
    (col : String) (vals : List Val) :
    ∀ i ∈ (processColumn raw truth helpers use_llm cleanResp col vals).2,
      suggOk i = true := by
  intro i hi
  unfold processColumn at hi
  dsimp only at hi
  obtain ⟨iss, hiss, hmem⟩ := List.mem_flatten.mp hi
  obtain ⟨cell, hcell, hc⟩ := List.mem_map.mp hiss
  obtain ⟨idx, _, hcell2⟩ := List.mem_map.mp hcell
  subst hc
  subst hcell2
  exact processCell_suggOk raw truth helpers use_llm cleanResp col idx _ i hmem

/-- C3 counterexample: a row with `phone` empty and a helper column holding
`john@example.com` yields a phone issue with NO suggestion — the email is not
surfaced as the claim requires. -/
theorem phone_suggestion_counterexample :
    (build_proposed_clean_df
        [("phone", [Val.vstr ""]), ("Contact Email", [Val.vstr "john@example.com"])]
        [("phone", ⟨some "phone", 1, "canonical"⟩)]
        [("phone", ⟨[], none, ""⟩)] false [] (fun _ _ _ => none)).2 =
      [⟨some 0, "phone", Val.vstr "", "Null or empty", none, none⟩,
       ⟨none, "Contact Email", Val.vnone, "Extra column", none, none⟩] ∧
    (none : Option String) ≠ some "john@example.com" := by decide

/-- C3 (amended): in the cleaning pass, an email issue's suggestion always
contains `@` (a helper column containing only a digit sequence is never
attached), while a phone issue's suggestion, when present, is the helper
value's `[0-9+]` characters with at least 7 digits — a helper column
containing an email address never has that email attached. -/
theorem cross_field_suggestion_rule :
    ∀ raw mapping truth use_llm proposeResp cleanResp,
      ((build_proposed_clean_df raw mapping truth use_llm proposeResp
        cleanResp).2.all suggOk) = true := by
  intro raw mapping truth use_llm proposeResp cleanResp
  unfold build_proposed_clean_df
  dsimp only
  rw [List.all_eq_true]
  intro i hi
  rcases List.mem_append.mp hi with hi1 | hiP
  · rcases List.mem_append.mp hi1 with hi2 | hi5
    · rcases List.mem_append.mp hi2 with hi3 | hi4
      · obtain ⟨iss, hiss, hmem⟩ := List.mem_flatten.mp hi3
        obtain ⟨pc, hpcm, hpc⟩ := List.mem_map.mp hiss
        unfold perColOf at hpcm
        obtain ⟨q, _, hq⟩ := List.mem_map.mp hpcm
        rw [← hpc] at hmem
        rw [← hq] at hmem
        exact processColumn_suggOk raw truth _ use_llm cleanResp q.1 q.2 i hmem
      · obtain ⟨c, _, hc⟩ := List.mem_map.mp hi4
        rw [← hc]
        exact suggOk_none rfl
    · obtain ⟨c, _, hc⟩ := List.mem_map.mp hi5
      rw [← hc]
      exact suggOk_none rfl
  · obtain ⟨p, _, hp⟩ := List.mem_map.mp hiP
    rw [← hp]
    exact suggOk_none rfl

end SchemaMapper
